import Mathlib

/-!
# Loki-backed annotation store

Shallow embedding of `pkg/services/annotations/annotationsimpl/loki_annotations`
(`merge.go`, `annotations_types.go`, `annotations_store.go`) and the properties of its merge
engine and of its write and read path.  The merge engine of `pkg/loki-annotations/merge.go`
has the same control flow; it differs only in the fields its projection copies.

Conventions of the embedding:

* `int64` is `Int`; where the source multiplies or subtracts, the result is wrapped to 64
  bits (`wrap64`).  The merge engine only compares such values.
* A Go slice of strings that may be `nil` is `Option (List String)`: `none` is the nil
  slice, `some []` the empty non-nil slice.
* A Go `map[string]*ChangeEntry` is a function `String → Option ChangeEntry`.
* Entries are passed by pointer in Go and `applyChanges` writes through the pointer;
  the embedding passes the state explicitly: `MergeRun` returns the result together
  with the entries in the state the run left them.
* The clock and the log backend client are parameters of the store operations.
-/

namespace LokiAnnotations

/-! ## Data model (`annotations_types.go`) -/

/-- AnnotationEntry is an annotation entry of the main stream. -/
structure AnnotationEntry where
  ID : String
  OrgID : Int
  UserID : Int
  DashboardUID : String
  PanelID : Int
  Text : String
  Tags : Option (List String)
  Time : Int
  TimeEnd : Int
  Created : Int
deriving DecidableEq, Repr

/-- ChangeEntry is a change entry of the changes stream. -/
structure ChangeEntry where
  AnnotationID : String
  Operation : String
  Created : Int
  Text : String
  Tags : Option (List String)
deriving DecidableEq, Repr

/-- ItemDTO carries the fields of `annotations.ItemDTO` that the projection writes; the
type has further fields, which the merge engine leaves at their zero value. -/
structure ItemDTO where
  ID : Int
  DashboardUID : Option String
  PanelID : Int
  UserID : Int
  Text : String
  Tags : Option (List String)
  Time : Int
  TimeEnd : Int
deriving DecidableEq, Repr

/-- ItemQuery carries the fields of `annotations.ItemQuery` that the store reads. -/
structure ItemQuery where
  OrgID : Int
  From : Int
  To : Int
  DashboardUID : String
  PanelID : Int
  AnnotationID : Int
  Limit : Int
deriving DecidableEq, Repr

/-! ## Identifier decoding (`merge.go`, `parseID`) -/

/-- Accumulates a run of decimal digits, most significant first; any other character is a
syntax error. -/
def parseDigits : List Char → Nat → Option Nat
  | [], acc => some acc
  | c :: cs, acc =>
    if c.isDigit then parseDigits cs (acc * 10 + (c.toNat - 48)) else none

/-- The unsigned part of `strconv.ParseInt(s, 10, 64)`: at least one digit, digits only. -/
def parseMagnitude (ds : List Char) : Option Nat :=
  match ds with
  | [] => none
  | _ => parseDigits ds 0

/-- Embedding of `parseID`, that is `strconv.ParseInt(idStr, 10, 64)`: an optional sign, then
decimal digits; the value must fit an `int64`.  `none` stands for a non-nil error. -/
def parseID (idStr : String) : Option Int :=
  match idStr.toList with
  | [] => none
  | c :: cs =>
    if c = '+' then
      match parseMagnitude cs with
      | some n => if n < 2 ^ 63 then some (n : Int) else none
      | none => none
    else if c = '-' then
      match parseMagnitude cs with
      | some n => if n ≤ 2 ^ 63 then some (-(n : Int)) else none
      | none => none
    else
      match parseMagnitude (c :: cs) with
      | some n => if n < 2 ^ 63 then some (n : Int) else none
      | none => none

/-- The numeric identifier the projection extracts: `len(entry.ID) > 4 && entry.ID[:4] == "ann-"`
followed by `parseID(entry.ID[4:])`; 0 when the test or the parse fails.  The four prefix
bytes are ASCII, so the byte-wise test of the source is the character-wise one here. -/
def numericID (id : String) : Int :=
  match id.toList with
  | 'a' :: 'n' :: 'n' :: '-' :: c :: cs =>
    match parseID (String.mk (c :: cs)) with
    | some n => n
    | none => 0
  | _ => 0

/-! ## Merge engine (`merge.go`) -/

/-- Embedding of `Merger.annotationToDTO`. -/
def annotationToDTO (entry : AnnotationEntry) : ItemDTO :=
  { ID := numericID entry.ID
    DashboardUID := if entry.DashboardUID ≠ "" then some entry.DashboardUID else none
    PanelID := if entry.PanelID > 0 then entry.PanelID else 0
    UserID := if entry.UserID > 0 then entry.UserID else 0
    Text := entry.Text
    Tags := entry.Tags
    Time := entry.Time
    TimeEnd := entry.TimeEnd }

/-- Embedding of `Merger.annotationsToDTOs`. -/
def annotationsToDTOs (entries : List AnnotationEntry) : List ItemDTO :=
  entries.map annotationToDTO

/-- Embedding of `Merger.applyChanges`: the entry after the writes through the pointer. -/
def applyChanges (ann : AnnotationEntry) (change : ChangeEntry) : AnnotationEntry :=
  let ann := if change.Text ≠ "" then { ann with Text := change.Text } else ann
  match change.Tags with
  | some tags => { ann with Tags := some tags }
  | none => ann

/-- The map from annotation identifier to change entry. -/
abbrev ChangeMap := String → Option ChangeEntry

/-- One iteration of the grouping loop of `Merge`:
`if !ok || change.Created > existing.Created { changesByID[change.AnnotationID] = change }`. -/
def groupStep (changesByID : ChangeMap) (change : ChangeEntry) : ChangeMap :=
  match changesByID change.AnnotationID with
  | none => fun k => if k = change.AnnotationID then some change else changesByID k
  | some existing =>
    if change.Created > existing.Created then
      fun k => if k = change.AnnotationID then some change else changesByID k
    else changesByID

/-- The grouping loop of `Merge`, scanning the changes in slice order from the empty map. -/
def groupChanges (changes : List ChangeEntry) : ChangeMap :=
  changes.foldl groupStep (fun _ => none)

/-- The loop of `Merge` that applies the changes and builds the result.  The first component
is `result` in append order, the second the entries as the loop leaves them. -/
def mergeLoop (changesByID : ChangeMap) :
    List AnnotationEntry → List ItemDTO × List AnnotationEntry
  | [] => ([], [])
  | ann :: rest =>
    let tail := mergeLoop changesByID rest
    match changesByID ann.ID with
    | some change =>
      if change.Operation = "delete" then
        (tail.1, ann :: tail.2)
      else
        let ann1 := if change.Operation = "update" then applyChanges ann change else ann
        (annotationToDTO ann1 :: tail.1, ann1 :: tail.2)
    | none => (annotationToDTO ann :: tail.1, ann :: tail.2)

/-- The comparison function `Merge` hands to `sort.Slice`. -/
def dtoLess (a b : ItemDTO) : Bool :=
  if a.Time ≠ b.Time then decide (a.Time > b.Time) else decide (a.TimeEnd > b.TimeEnd)

/-- Inserts `x` after the leading elements that `less` puts before it. -/
def insertSorted {α : Type} (less : α → α → Bool) (x : α) : List α → List α
  | [] => [x]
  | y :: ys => if less y x then y :: insertSorted less x ys else x :: y :: ys

/-- Model of `sort.Slice(xs, less)`: the slice sorted by `less`.  Go does not fix the order
of elements that `less` does not separate; the model keeps them in their input order. -/
def sortSlice {α : Type} (less : α → α → Bool) : List α → List α
  | [] => []
  | x :: xs => insertSorted less x (sortSlice less xs)

/-- The limit step of `Merge`:
`if query.Limit > 0 && int64(len(result)) > query.Limit { result = result[:query.Limit] }`. -/
def applyLimit (query : ItemQuery) (result : List ItemDTO) : List ItemDTO :=
  if query.Limit > 0 ∧ (result.length : Int) > query.Limit then
    result.take query.Limit.toNat
  else result

/-- Embedding of `Merger.Merge` with the state made explicit: the returned slice and the
annotation entries after the run.  The map `annotationMap` the source also builds is never
read and is left out. -/
def MergeRun (annEntries : List AnnotationEntry) (changes : List ChangeEntry)
    (query : ItemQuery) : List ItemDTO × List AnnotationEntry :=
  if changes.length = 0 then
    (annotationsToDTOs annEntries, annEntries)
  else
    let changesByID := groupChanges changes
    let out := mergeLoop changesByID annEntries
    (applyLimit query (sortSlice dtoLess out.1), out.2)

/-- The slice `Merger.Merge` returns. -/
def Merge (annEntries : List AnnotationEntry) (changes : List ChangeEntry)
    (query : ItemQuery) : List ItemDTO :=
  (MergeRun annEntries changes query).1

/-- The change list without its orphans: the changes whose annotation identifier is the
identifier of no entry of the list are removed, the others keep their order. -/
def withoutOrphans (annEntries : List AnnotationEntry) (changes : List ChangeEntry) :
    List ChangeEntry :=
  changes.filter (fun c => decide (c.AnnotationID ∈ annEntries.map (fun e => e.ID)))

/-- The order of a result sorted descending by start time, ties descending by end time. -/
def descByTime (a b : ItemDTO) : Prop :=
  a.Time > b.Time ∨ (a.Time = b.Time ∧ a.TimeEnd ≥ b.TimeEnd)

/-- What the loop of `Merge` appends for one entry: nothing for a tombstoned entry, else the
projection of the entry after its change was applied. -/
def reconcile (changesByID : ChangeMap) (ann : AnnotationEntry) : Option ItemDTO :=
  match changesByID ann.ID with
  | some change =>
    if change.Operation = "delete" then none
    else some (annotationToDTO
      (if change.Operation = "update" then applyChanges ann change else ann))
  | none => some (annotationToDTO ann)

/-- The state in which the loop of `Merge` leaves one entry. -/
def entryAfter (changesByID : ChangeMap) (ann : AnnotationEntry) : AnnotationEntry :=
  match changesByID ann.ID with
  | some change =>
    if change.Operation = "update" then applyChanges ann change else ann
  | none => ann

/-- The annotation an update is stated to produce from an entry: the projection of the entry
as created, with the text of the update when that is non-empty and with the tags of the
update when those are non-nil. -/
def updatedView (e : AnnotationEntry) (U : ChangeEntry) : ItemDTO :=
  { annotationToDTO e with
    Text := if U.Text = "" then e.Text else U.Text
    Tags := match U.Tags with
      | some tags => some tags
      | none => e.Tags }

instance descByTimeDecidable (a b : ItemDTO) : Decidable (descByTime a b) := by
  unfold descByTime
  infer_instance

/-! ## Store (`annotations_store.go`)

The clock is a parameter: every operation takes the reading `nowNs` of `time.Now()` in
nanoseconds since the epoch and uses it for each of its calls of `time.Now()`.  The log
backend client is a parameter too (`Client`); `memoryClient` is a backend that stores every
pushed line. -/

/-- The name of the main stream (`annotationsStream`). -/
def annotationsStream : String := "grafana_annotations"

/-- The name of the changes stream (`changesStream`). -/
def changesStream : String := "grafana_annotations_changes"

/-- Item carries the fields of `annotations.Item` that the store reads or writes. -/
structure Item where
  ID : Int
  OrgID : Int
  UserID : Int
  DashboardUID : String
  PanelID : Int
  Text : String
  Tags : Option (List String)
  Epoch : Int
  EpochEnd : Int
  Created : Int
deriving DecidableEq, Repr

/-- The value of an `int64` expression whose exact value is `x`: two's complement wrapping. -/
def wrap64 (x : Int) : Int := (x + 2 ^ 63) % 2 ^ 64 - 2 ^ 63

/-- The decimal digits of `n` in front of `acc`, least significant digit produced first;
`fuel` bounds the number of digits. -/
def natDigitsAux : Nat → Nat → List Char → List Char
  | 0, _, acc => acc
  | fuel + 1, n, acc =>
    if n / 10 = 0 then Char.ofNat (48 + n % 10) :: acc
    else natDigitsAux fuel (n / 10) (Char.ofNat (48 + n % 10) :: acc)

/-- The decimal digits of a natural number, most significant first. -/
def natDigits (n : Nat) : List Char := natDigitsAux (n + 1) n []

/-- The decimal form of an `int64`, as `strconv.FormatInt(n, 10)` and the verb `%d` give it. -/
def formatInt (n : Int) : String :=
  if n < 0 then String.mk ('-' :: natDigits n.natAbs) else String.mk (natDigits n.toNat)

/-- The identifier string of the write path: `fmt.Sprintf("ann-%d", id)`. -/
def annotationID (id : Int) : String := "ann-" ++ formatInt id

/-- A log line, represented by what `json.Unmarshal` makes of its text for each of the two
entry types: `none` where it returns an error. -/
structure LogLine where
  asEntry : Option AnnotationEntry
  asChange : Option ChangeEntry
deriving DecidableEq, Repr

/-- The effect of `omitempty` on a tag slice: an empty slice is left out of the JSON text and
is read back as nil. -/
def omitEmptyTags : Option (List String) → Option (List String)
  | some [] => none
  | tags => tags

/-- The line `json.Marshal(entry)` produces for an annotation entry.  Read back as an
annotation entry it gives the entry, up to `omitempty`; read back as a change entry it gives
the fields whose JSON names the two types share (`created`, `text`, `tags`). -/
def marshalEntry (e : AnnotationEntry) : LogLine :=
  { asEntry := some { e with Tags := omitEmptyTags e.Tags }
    asChange := some
      { AnnotationID := "", Operation := "", Created := e.Created, Text := e.Text,
        Tags := omitEmptyTags e.Tags } }

/-- A log sample: timestamp in nanoseconds and line (`lokiclient.Sample`). -/
structure Sample where
  T : Int
  V : LogLine
deriving DecidableEq, Repr

set_option linter.dupNamespace false in
/-- A labelled stream of samples (`lokiclient.Stream`); the label map is a list of pairs. -/
structure Stream where
  Stream : List (String × String)
  Values : List Sample
deriving DecidableEq, Repr

/-- Errors: one raised by the backend client, or an `ErrLokiAnnotationsInternal` that wraps
a cause. -/
inductive Err where
  | backend (msg : String)
  | internal (msg : String) (cause : Err)
deriving DecidableEq, Repr

/-- The interface `lokiAnnotationsClient` over a backend state `σ`.  A label selector
`{k1="v1",k2="v2"}` is passed as the list of its matchers; `RangeQuery` yields the streams of
`res.Data.Result`. -/
structure Client (σ : Type) where
  Push : σ → List Stream → Except Err σ
  RangeQuery : σ → List (String × String) → Int → Int → Int → Except Err (List Stream)

/-- The duration `time.Hour` in nanoseconds. -/
def hourNs : Int := 3600 * 1000000000

/-- The duration `30 * 24 * time.Hour` in nanoseconds. -/
def thirtyDaysNs : Int := 30 * 24 * 3600 * 1000000000

/-- The duration `30 * 24 * time.Hour` in milliseconds. -/
def thirtyDaysMs : Int := 30 * 24 * 3600 * 1000

/-- The result of `Time.Sub` whose exact value is `d`: a `Duration` saturates. -/
def saturate (d : Int) : Int := max (-(2 ^ 63)) (min d (2 ^ 63 - 1))

/-- The defaults `Add` writes into the caller's item: identifier and timestamps. -/
def addDefaults (nowNs : Int) (item : Item) : Item :=
  let item := if item.ID = 0 then { item with ID := Int.tdiv nowNs 1000000 } else item
  let now := nowNs / 1000000
  let item := if item.Epoch = 0 then { item with Epoch := now } else item
  if item.Created = 0 then { item with Created := item.Epoch } else item

/-- The annotation entry `Add` builds from the item. -/
def addEntry (item : Item) : AnnotationEntry :=
  { ID := annotationID item.ID
    OrgID := item.OrgID
    UserID := item.UserID
    DashboardUID := item.DashboardUID
    PanelID := item.PanelID
    Text := item.Text
    Tags := item.Tags
    Time := item.Epoch
    TimeEnd := item.EpochEnd
    Created := item.Created }

/-- The labels of the stream `Add` pushes. -/
def addLabels (item : Item) : List (String × String) :=
  [("stream", annotationsStream), ("org_id", formatInt item.OrgID)]
    ++ (if item.DashboardUID ≠ "" then [("dashboard_uid", item.DashboardUID)] else [])
    ++ (if item.PanelID > 0 then [("panel_id", formatInt item.PanelID)] else [])

/-- The timestamp `Add` gives the log line: the clock reading, or the event time when that is
positive and less than an hour old. -/
def lokiTimestamp (nowNs : Int) (epoch : Int) : Int :=
  if epoch > 0 then
    let annotationTime := wrap64 (epoch * 1000000)
    let timeDiff := saturate (nowNs - annotationTime)
    if timeDiff < hourNs ∧ timeDiff ≥ 0 then annotationTime else nowNs
  else nowNs

/-- Embedding of `LokiAnnotationsStore.Add`: the result of `Push` (returned as it is) and the
caller's item after the call.  `json.Marshal` does not fail on an `AnnotationEntry`. -/
def Add {σ : Type} (client : Client σ) (nowNs : Int) (st : σ) (item : Item) :
    Except Err σ × Item :=
  let item := addDefaults nowNs item
  let logLine := marshalEntry (addEntry item)
  let stream : Stream :=
    { Stream := addLabels item
      Values := [{ T := lokiTimestamp nowNs item.Epoch, V := logLine }] }
  (client.Push st [stream], item)

/-- The label selector of `queryMainStream`. -/
def mainSelector (query : ItemQuery) : List (String × String) :=
  [("stream", annotationsStream), ("org_id", formatInt query.OrgID)]
    ++ (if query.DashboardUID ≠ "" then [("dashboard_uid", query.DashboardUID)] else [])
    ++ (if query.PanelID > 0 then [("panel_id", formatInt query.PanelID)] else [])

/-- The window `(from, to)` in nanoseconds that `queryMainStream` passes to `RangeQuery`. -/
def mainWindow (nowNs : Int) (query : ItemQuery) : Int × Int :=
  let fromNs := wrap64 (query.From * 1000000)
  let toNs := wrap64 (query.To * 1000000)
  let toNs := if toNs = 0 then nowNs else toNs
  let thirtyDaysAgo := wrap64 (nowNs - thirtyDaysNs)
  let fromNs := if fromNs = 0 ∨ fromNs < thirtyDaysAgo then thirtyDaysAgo else fromNs
  (fromNs, toNs)

/-- The result limit that `queryMainStream` passes to `RangeQuery`. -/
def mainLimit (query : ItemQuery) : Int :=
  let limit := if query.Limit = 0 then 100 else query.Limit
  if query.AnnotationID ≠ 0 ∧ limit < 1000 then 1000 else limit

/-- The parsing loop of `queryMainStream`: the entries of the lines that decode, in response
order, restricted to the target identifier when the query names one. -/
def decodeEntries (query : ItemQuery) (res : List Stream) : List AnnotationEntry :=
  let targetID := if query.AnnotationID ≠ 0 then annotationID query.AnnotationID else ""
  (res.flatMap (fun stream => stream.Values)).filterMap (fun sample =>
    match sample.V.asEntry with
    | none => none
    | some entry =>
      if query.AnnotationID ≠ 0 ∧ entry.ID ≠ targetID then none else some entry)

/-- Embedding of `LokiAnnotationsStore.queryMainStream`. -/
def queryMainStream {σ : Type} (client : Client σ) (nowNs : Int) (st : σ)
    (query : ItemQuery) : Except Err (List AnnotationEntry) :=
  match client.RangeQuery st (mainSelector query) (mainWindow nowNs query).1
      (mainWindow nowNs query).2 (mainLimit query) with
  | .error err => .error (Err.internal "failed to query main stream" err)
  | .ok res => .ok (decodeEntries query res)

/-- The parsing loop of `queryChangesStream`. -/
def decodeChanges (res : List Stream) : List ChangeEntry :=
  (res.flatMap (fun stream => stream.Values)).filterMap (fun sample => sample.V.asChange)

/-- Embedding of `LokiAnnotationsStore.queryChangesStream`; `fromMs` and `toMs` are in
milliseconds. -/
def queryChangesStream {σ : Type} (client : Client σ) (st : σ) (fromMs toMs : Int) :
    Except Err (List ChangeEntry) :=
  match client.RangeQuery st [("stream", changesStream)] (wrap64 (fromMs * 1000000))
      (wrap64 (toMs * 1000000)) 10000 with
  | .error err => .error (Err.internal "failed to query changes stream" err)
  | .ok res => .ok (decodeChanges res)

/-- The lower bound in milliseconds of the changes query of `Get`. -/
def changesFrom (nowNs : Int) (query : ItemQuery) : Int :=
  let thirtyDaysAgo := wrap64 (nowNs / 1000000 - thirtyDaysMs)
  if query.From = 0 ∨ query.From < thirtyDaysAgo then thirtyDaysAgo else query.From

/-- Embedding of `LokiAnnotationsStore.Get`; the access resources only feed log messages. -/
def Get {σ : Type} (client : Client σ) (nowNs : Int) (st : σ) (query : ItemQuery) :
    Except Err (List ItemDTO) :=
  match queryMainStream client nowNs st query with
  | .error err => .error err
  | .ok annotations =>
    let now := nowNs / 1000000
    let query := if query.To = 0 then { query with To := now } else query
    match queryChangesStream client st (changesFrom nowNs query) now with
    | .error err => .error err
    | .ok changes => .ok (Merge annotations changes query)

/-! ## Store: further write operations (`annotations_store.go`) -/

/-- The stream `Add` pushes for an item, defaults applied: one sample on the main stream. -/
def addStream (nowNs : Int) (item : Item) : Stream :=
  { Stream := addLabels (addDefaults nowNs item)
    Values := [{ T := lokiTimestamp nowNs (addDefaults nowNs item).Epoch
                 V := marshalEntry (addEntry (addDefaults nowNs item)) }] }

/-- The defaults `AddMany` writes into the item at index `i` of the batch; `now` is the
clock reading in milliseconds taken once before the loop. -/
def addManyDefaults (now : Int) (i : Nat) (item : Item) : Item :=
  let item := if item.ID = 0 then { item with ID := wrap64 (now + (i : Int)) } else item
  let item := if item.Epoch = 0 then { item with Epoch := now } else item
  if item.Created = 0 then { item with Created := item.Epoch } else item

/-- The loop of `AddMany` from index `i` on: the streams it collects and the items as it
leaves them.  `json.Marshal` does not fail on an `AnnotationEntry`, so no item is skipped. -/
def addManyLoop (nowNs : Int) : Nat → List Item → List Stream × List Item
  | _, [] => ([], [])
  | i, item :: rest =>
    let item1 := addManyDefaults (nowNs / 1000000) i item
    let stream : Stream :=
      { Stream := addLabels item1
        Values := [{ T := lokiTimestamp nowNs item1.Epoch, V := marshalEntry (addEntry item1) }] }
    let tail := addManyLoop nowNs (i + 1) rest
    (stream :: tail.1, item1 :: tail.2)

/-- Embedding of `LokiAnnotationsStore.AddMany`: the result (success without a `Push` when no
stream was collected, else the result of the one `Push`) and the caller's items after the
call. -/
def AddMany {σ : Type} (client : Client σ) (nowNs : Int) (st : σ) (items : List Item) :
    Except Err σ × List Item :=
  let out := addManyLoop nowNs 0 items
  if out.1.length = 0 then (.ok st, out.2) else (client.Push st out.1, out.2)

/-- The line `json.Marshal(changeEntry)` produces for a change entry.  Read back as a change
entry it gives the entry, up to `omitempty` on the tags (an empty text is left out and read
back as empty); read back as an annotation entry it gives the fields whose JSON names the
two types share. -/
def marshalChange (c : ChangeEntry) : LogLine :=
  { asEntry := some
      { ID := "", OrgID := 0, UserID := 0, DashboardUID := "", PanelID := 0, Text := c.Text,
        Tags := omitEmptyTags c.Tags, Time := 0, TimeEnd := 0, Created := c.Created }
    asChange := some { c with Tags := omitEmptyTags c.Tags } }

/-- The stream `Update` pushes: one sample on the changes stream. -/
def updateStream (nowNs : Int) (item : Item) : Stream :=
  { Stream := [("stream", changesStream), ("org_id", formatInt item.OrgID)]
    Values := [{ T := nowNs
                 V := marshalChange
                   { AnnotationID := annotationID item.ID, Operation := "update",
                     Created := nowNs / 1000000, Text := item.Text, Tags := item.Tags } }] }

/-- Embedding of `LokiAnnotationsStore.Update`: the result of `Push`, returned as it is. -/
def Update {σ : Type} (client : Client σ) (nowNs : Int) (st : σ) (item : Item) :
    Except Err σ :=
  client.Push st [updateStream nowNs item]

/-- DeleteParams carries the fields of `annotations.DeleteParams` that `Delete` reads. -/
structure DeleteParams where
  OrgID : Int
  ID : Int
deriving DecidableEq, Repr

/-- The stream `Delete` pushes: one sample on the changes stream. -/
def deleteStream (nowNs : Int) (params : DeleteParams) : Stream :=
  { Stream := [("stream", changesStream), ("org_id", formatInt params.OrgID)]
    Values := [{ T := nowNs
                 V := marshalChange
                   { AnnotationID := annotationID params.ID, Operation := "delete",
                     Created := nowNs / 1000000, Text := "", Tags := none } }] }

/-- Embedding of `LokiAnnotationsStore.Delete`: the result of `Push`, returned as it is. -/
def Delete {σ : Type} (client : Client σ) (nowNs : Int) (st : σ) (params : DeleteParams) :
    Except Err σ :=
  client.Push st [deleteStream nowNs params]

/-- A numeric remainder of an identifier, in the words of the spec ("parses the remainder as
a base-10 int64"): an optional sign followed by one or more decimal digits. -/
def isNumeric : List Char → Bool
  | [] => false
  | c :: cs =>
    if c = '+' ∨ c = '-' then !cs.isEmpty && cs.all Char.isDigit
    else (c :: cs).all Char.isDigit

/-- The item at index `i` of a batch as the spec describes `AddMany`: an item without a
supplied identifier gets the identifier `now_ms + i`; nothing else changes. -/
def withBatchID (nowNs : Int) (i : Nat) (item : Item) : Item :=
  if item.ID = 0 then { item with ID := nowNs / 1000000 + (i : Int) } else item

/-! ## Tag aggregation (`annotations_store.go`, `GetTags`) -/

/-- TagsQuery carries the fields of `annotations.TagsQuery` that `GetTags` reads. -/
structure TagsQuery where
  OrgID : Int
  Tag : String
  Limit : Int
deriving DecidableEq, Repr

/-- TagsDTO is one entry of the result of `GetTags`: a tag and its count. -/
structure TagsDTO where
  Tag : String
  Count : Int
deriving DecidableEq, Repr

/-- The test `strings.Contains(s, substr)` on the characters of the two strings: `sub` occurs
in the list as a run of consecutive characters. -/
def hasInfix (sub : List Char) : List Char → Bool
  | [] => sub.isEmpty
  | c :: cs => sub.isPrefixOf (c :: cs) || hasInfix sub cs

/-- The tags a returned annotation carries; ranging over a nil slice visits nothing. -/
def tagsOf (ann : ItemDTO) : List String :=
  match ann.Tags with
  | some tags => tags
  | none => []

/-- The test of the inner loop of `GetTags`: an empty tag is skipped, and with a filter set
a tag is kept only when its lower-case form contains the lower-case form of the filter.
`lower` stands for `strings.ToLower`. -/
def tagPasses (lower : String → String) (query : TagsQuery) (tagStr : String) : Bool :=
  if tagStr = "" then false
  else if query.Tag ≠ "" then hasInfix (lower query.Tag).toList (lower tagStr).toList
  else true

/-- The map `tagCounts` of `GetTags`: its keys, in the order they were first written, and
the count of every string (0 for a string that is no key). -/
structure TagCounts where
  keys : List String
  count : String → Int

/-- The statement `tagCounts[tagStr]++`. -/
def TagCounts.incr (m : TagCounts) (tagStr : String) : TagCounts :=
  { keys := if tagStr ∈ m.keys then m.keys else m.keys ++ [tagStr]
    count := fun k => if k = tagStr then m.count k + 1 else m.count k }

/-- The two loops of `GetTags` that fill `tagCounts` from the annotations. -/
def countTags (lower : String → String) (query : TagsQuery) (anns : List ItemDTO) :
    TagCounts :=
  anns.foldl (fun m ann =>
    (tagsOf ann).foldl (fun m tagStr =>
      if tagPasses lower query tagStr then m.incr tagStr else m) m)
    { keys := [], count := fun _ => 0 }

/-- The order `<` of Go strings on the characters of two strings: lexicographic by code
point, which is the byte-wise order of their UTF-8 forms. -/
def charsLess : List Char → List Char → Bool
  | _, [] => false
  | [], _ :: _ => true
  | a :: as, b :: bs => if a = b then charsLess as bs else decide (a < b)

/-- The comparison function `GetTags` hands to `sort.Slice`: `tags[i].Tag < tags[j].Tag`. -/
def tagLess (a b : TagsDTO) : Bool := charsLess a.Tag.toList b.Tag.toList

/-- The tag list of `GetTags` after the sort and before the limit.  Go visits the keys of a
map in no fixed order; the keys are distinct, so the sorted list does not depend on it. -/
def sortedTags (lower : String → String) (query : TagsQuery) (anns : List ItemDTO) :
    List TagsDTO :=
  sortSlice tagLess
    ((countTags lower query anns).keys.map
      (fun k => { Tag := k, Count := (countTags lower query anns).count k }))

/-- The slice expression `tags[:limit]` for a slice of length at least `limit`: `none` stands
for the run-time panic on a negative index. -/
def sliceTo {α : Type} (tags : List α) (limit : Int) : Option (List α) :=
  if 0 ≤ limit then some (tags.take limit.toNat) else none

/-- The limit step of `GetTags`:
`if limit == 0 { limit = 100 }; if int64(len(tags)) > limit { tags = tags[:limit] }`. -/
def limitTags (query : TagsQuery) (tags : List TagsDTO) : Option (List TagsDTO) :=
  let limit := if query.Limit = 0 then 100 else query.Limit
  if (tags.length : Int) > limit then sliceTo tags limit else some tags

/-- The part of `GetTags` that follows the call of `Get`: count, sort, limit.  `none` stands
for a run-time panic. -/
def aggregateTags (lower : String → String) (query : TagsQuery) (anns : List ItemDTO) :
    Option (List TagsDTO) :=
  limitTags query (sortedTags lower query anns)

/-- The query `GetTags` hands to `Get`: the last 30 days of the organisation, limit 10000. -/
def tagsItemQuery (nowNs : Int) (query : TagsQuery) : ItemQuery :=
  { OrgID := query.OrgID
    From := wrap64 (nowNs / 1000000 - thirtyDaysMs)
    To := nowNs / 1000000
    DashboardUID := ""
    PanelID := 0
    AnnotationID := 0
    Limit := 10000 }

/-- Embedding of `LokiAnnotationsStore.GetTags`: `none` for a run-time panic, else the error
of `Get` (with which the source returns an empty tag list) or the tag list. -/
def GetTags {σ : Type} (client : Client σ) (lower : String → String) (nowNs : Int) (st : σ)
    (query : TagsQuery) : Option (Except Err (List TagsDTO)) :=
  match Get client nowNs st (tagsItemQuery nowNs query) with
  | .error err => some (.error err)
  | .ok anns =>
    match aggregateTags lower query anns with
    | some tags => some (.ok tags)
    | none => none

/-- Lower-casing of the letters `A` to `Z`; `strings.ToLower` agrees with it on ASCII text. -/
def asciiLower (s : String) : String := String.mk (s.toList.map Char.toLower)

/-! ## The command-line copy (`pkg/loki-annotations/store.go`) -/

/-- The result limit `Store.queryMainStream` of the command-line copy passes to `RangeQuery`:
`s.client.RangeQuery(ctx, logQL, fromNs, toNs, query.Limit)`.  Its `Query` has the fields of
`ItemQuery`. -/
def cliMainLimit (query : ItemQuery) : Int := query.Limit

/-! ## A backend that fails -/

/-- A client whose every call fails with the error `cause`. -/
def failingClient (cause : Err) : Client Unit :=
  { Push := fun _ _ => .error cause
    RangeQuery := fun _ _ _ _ _ => .error cause }

/-- A client whose query of the changes stream fails with the error `cause`, while `Push`
succeeds and every other query yields an empty response. -/
def changesFailingClient (cause : Err) : Client Unit :=
  { Push := fun st _ => .ok st
    RangeQuery := fun _ selector _ _ _ =>
      if selector = [("stream", changesStream)] then .error cause else .ok [] }

/-! ## A backend with a given response -/

/-- A client that answers every range query with the response `res`. -/
def fixedClient (res : List Stream) : Client Unit :=
  { Push := fun st _ => .ok st
    RangeQuery := fun _ _ _ _ _ => .ok res }

/-! ## A backend that stores every pushed line -/

/-- A stored log line with the labels of its stream. -/
structure StoredLine where
  labels : List (String × String)
  T : Int
  V : LogLine
deriving DecidableEq, Repr

/-- The content of the backend: the stored lines in the order they were pushed. -/
abbrev Backend := List StoredLine

/-- A label set satisfies a selector when it carries every matcher's label with its value. -/
def selects (selector labels : List (String × String)) : Bool :=
  selector.all (fun m => decide (labels.lookup m.1 = some m.2))

/-- The stored lines a range query matches: selector satisfied, timestamp in the window. -/
def matching (b : Backend) (selector : List (String × String)) (startNs endNs : Int) :
    List StoredLine :=
  b.filter (fun l => selects selector l.labels && decide (startNs ≤ l.T) && decide (l.T ≤ endNs))

/-- Modelled from the spec: `Push` of the log backend client (an external collaborator),
"durably append a batch of labeled log lines".  It stores every line and does not fail. -/
def memoryPush (b : Backend) (streams : List Stream) : Except Err Backend :=
  .ok (b ++ streams.flatMap (fun s =>
    s.Values.map (fun v => { labels := s.Stream, T := v.T, V := v.V })))

/-- Modelled from the spec: `RangeQuery` of the log backend client (an external collaborator),
"returns all (stream-labels, (timestamp, line)) pairs matching the selector within the window,
capped at `limit`".  The spec does not say which lines a cap keeps; this backend keeps the
first `limit` in storage order. -/
def memoryRangeQuery (b : Backend) (selector : List (String × String))
    (startNs endNs limit : Int) : Except Err (List Stream) :=
  .ok (((matching b selector startNs endNs).take limit.toNat).map
    (fun l => { Stream := l.labels, Values := [{ T := l.T, V := l.V }] }))

/-- The client of the backend that stores every pushed line. -/
def memoryClient : Client Backend :=
  { Push := memoryPush, RangeQuery := memoryRangeQuery }

/-- The operation `Add` followed by `Get` over the backend that stores every pushed line:
`Add` runs on the content `b` at clock reading `nowAdd`, `Get` on the content `Add` leaves,
at clock reading `nowGet`. -/
def addThenGet (b : Backend) (nowAdd nowGet : Int) (item : Item) (query : ItemQuery) :
    Except Err (List ItemDTO) :=
  match (Add memoryClient nowAdd b item).1 with
  | .ok b1 => Get memoryClient nowGet b1 query
  | .error err => .error err

/-! ## Sequences of write operations -/

/-- A call of the write path together with the clock reading at which it runs. -/
inductive WriteOp where
  | add (nowNs : Int) (item : Item)
  | update (nowNs : Int) (item : Item)
  | delete (nowNs : Int) (params : DeleteParams)
deriving DecidableEq, Repr

/-- One call of the write path on the backend that stores every pushed line. -/
def applyOp (b : Backend) : WriteOp → Except Err Backend
  | .add nowNs item => (Add memoryClient nowNs b item).1
  | .update nowNs item => Update memoryClient nowNs b item
  | .delete nowNs params => Delete memoryClient nowNs b params

/-- A sequence of calls of the write path, each on the content the one before left; the
first error ends the run. -/
def runOps (b : Backend) : List WriteOp → Except Err Backend
  | [] => .ok b
  | op :: ops =>
    match applyOp b op with
    | .ok b1 => runOps b1 ops
    | .error err => .error err

/-- The content a sequence of calls of the write path leaves on the backend, starting from
the empty backend (the empty content if a call fails). -/
def contentAfter (ops : List WriteOp) : Backend :=
  match runOps [] ops with
  | .ok b => b
  | .error _ => []

/-! ## Sample values -/

/-- A query for organisation 1 with no window, no filter and no limit. -/
def sampleQuery : ItemQuery :=
  { OrgID := 1, From := 0, To := 0, DashboardUID := "", PanelID := 0, AnnotationID := 0,
    Limit := 0 }

/-- An entry `ann-1` created with text "A", tags ["x"] and start time 10. -/
def entryA : AnnotationEntry :=
  { ID := "ann-1", OrgID := 1, UserID := 0, DashboardUID := "", PanelID := 0, Text := "A",
    Tags := some ["x"], Time := 10, TimeEnd := 10, Created := 10 }

/-- An entry `ann-2` created with text "B", no tags and start time 20. -/
def entryB : AnnotationEntry :=
  { ID := "ann-2", OrgID := 1, UserID := 0, DashboardUID := "", PanelID := 0, Text := "B",
    Tags := none, Time := 20, TimeEnd := 25, Created := 20 }

/-- An update of `ann-1` made at 100: text "old", tags ["old"]. -/
def updateOld : ChangeEntry :=
  { AnnotationID := "ann-1", Operation := "update", Created := 100, Text := "old",
    Tags := some ["old"] }

/-- An update of `ann-1` made at 200: text "new", tags unchanged (nil). -/
def updateNew : ChangeEntry :=
  { AnnotationID := "ann-1", Operation := "update", Created := 200, Text := "new",
    Tags := none }

/-- An update of `ann-1` made at 200: text unchanged (empty), tags cleared (empty, non-nil). -/
def updateClearTags : ChangeEntry :=
  { AnnotationID := "ann-1", Operation := "update", Created := 200, Text := "",
    Tags := some [] }

/-- A delete of `ann-1` made at 150. -/
def deleteMid : ChangeEntry :=
  { AnnotationID := "ann-1", Operation := "delete", Created := 150, Text := "", Tags := none }

/-- A delete of `ann-1` made at 300. -/
def deleteLast : ChangeEntry :=
  { AnnotationID := "ann-1", Operation := "delete", Created := 300, Text := "", Tags := none }

/-- An item without identifier for organisation 1 whose event started at
2023-11-14 19:26:40 UTC (1699990000000 ms) and lasted five seconds. -/
def itemPast : Item :=
  { ID := 0, OrgID := 1, UserID := 7, DashboardUID := "dash", PanelID := 3, Text := "deploy",
    Tags := some ["a", "b"], Epoch := 1699990000000, EpochEnd := 1699990005000, Created := 0 }

/-- The clock reading 2023-11-14 22:13:20 UTC in nanoseconds, 10000 seconds after the start
of `itemPast`. -/
def clockReading : Int := 1700000000000000000

/-- A query for organisation 1 over the two seconds around the start of `itemPast`. -/
def queryAroundEvent : ItemQuery :=
  { OrgID := 1, From := 1699989999000, To := 1699990001000, DashboardUID := "", PanelID := 0,
    AnnotationID := 0, Limit := 0 }

/-- An event time in milliseconds beyond the range whose nanoseconds fit an `int64`:
`2 ^ 58` ms after the time one second before `clockReading`. -/
def farFutureEpoch : Int := 288230376151711744 + 1699999999000

/-- The item `itemPast` with its event moved to `farFutureEpoch`. -/
def itemFarFuture : Item := { itemPast with Epoch := farFutureEpoch }

/-- The item `itemPast` with its end time unset. -/
def itemNoEnd : Item := { itemPast with EpochEnd := 0 }

/-- An item whose event started one second before `clockReading`. -/
def itemRecent : Item := { itemPast with Epoch := 1699999999000, EpochEnd := 0 }

/-- A query of organisation 1 whose window is open at the start and ends one day after
`clockReading`. -/
def queryIntoFuture : ItemQuery := { sampleQuery with To := 1700000000000 + 86400000 }

/-- A query of organisation 1 whose window is open at the start and ends sixty days before
`clockReading`. -/
def queryLongAgo : ItemQuery := { sampleQuery with To := 1700000000000 - 60 * 86400000 }

/-- A query of organisation 1 whose upper bound is `2 ^ 58` ms. -/
def queryWrappedTo : ItemQuery := { sampleQuery with To := 288230376151711744 }

/-- The item of the end-to-end scenario: organisation 1, identifier 100, text "A", tags
["x"], no timestamps. -/
def itemCreate : Item :=
  { ID := 100, OrgID := 1, UserID := 0, DashboardUID := "", PanelID := 0, Text := "A",
    Tags := some ["x"], Epoch := 0, EpochEnd := 0, Created := 0 }

/-- The update of the end-to-end scenario, made for organisation `org`: identifier 100,
text "B", tags nil. -/
def itemUpdate (org : Int) : Item :=
  { ID := 100, OrgID := org, UserID := 0, DashboardUID := "", PanelID := 0, Text := "B",
    Tags := none, Epoch := 0, EpochEnd := 0, Created := 0 }

/-- An update of identifier 100 that carries an empty text and an empty non-nil tag list. -/
def itemClearTags : Item :=
  { ID := 100, OrgID := 1, UserID := 0, DashboardUID := "", PanelID := 0, Text := "",
    Tags := some [], Epoch := 0, EpochEnd := 0, Created := 0 }

/-- The annotation of the end-to-end scenario after the update, created at millisecond
`m`. -/
def scenarioDTO (m : Int) : ItemDTO :=
  { ID := 100, DashboardUID := none, PanelID := 0, UserID := 0, Text := "B",
    Tags := some ["x"], Time := m, TimeEnd := 0 }

/-- An item of organisation 1 with identifier `id` whose event started `offset` seconds
after the start of `itemPast`, hours before `clockReading`. -/
def itemAt (id offset : Int) : Item :=
  { ID := id, OrgID := 1, UserID := 0, DashboardUID := "", PanelID := 0, Text := "event",
    Tags := none, Epoch := 1699990000000 + offset * 1000, EpochEnd := 0, Created := 0 }

/-- Four annotations created one millisecond apart, with start times in the order
+1 s, +3 s, +4 s, +2 s, followed by an update of an identifier that no annotation has. -/
def fourEvents : List WriteOp :=
  [.add clockReading (itemAt 1 1), .add (clockReading + 1000000) (itemAt 2 3),
   .add (clockReading + 2000000) (itemAt 3 4), .add (clockReading + 3000000) (itemAt 4 2),
   .update (clockReading + 4000000) { itemUpdate 1 with ID := 999 }]

/-- The annotation `Get` returns for `itemAt id offset`. -/
def eventDTO (id offset : Int) : ItemDTO :=
  { ID := id, DashboardUID := none, PanelID := 0, UserID := 0, Text := "event", Tags := none,
    Time := 1699990000000 + offset * 1000, TimeEnd := 0 }

/-- The line the backend holds for `itemCreate` added at millisecond `m`. -/
def scenarioAddLine (m : Int) : StoredLine :=
  { labels := [("stream", annotationsStream), ("org_id", "1")]
    T := m * 1000000
    V := marshalEntry
      { ID := "ann-100", OrgID := 1, UserID := 0, DashboardUID := "", PanelID := 0,
        Text := "A", Tags := some ["x"], Time := m, TimeEnd := 0, Created := m } }

/-- The line the backend holds for `itemUpdate org` written at millisecond `m`. -/
def scenarioUpdateLine (m org : Int) : StoredLine :=
  { labels := [("stream", changesStream), ("org_id", formatInt org)]
    T := m * 1000000
    V := marshalChange
      { AnnotationID := "ann-100", Operation := "update", Created := m, Text := "B",
        Tags := none } }

/-- The line the backend holds for a delete of identifier 100 written under organisation
`org` at millisecond `m`. -/
def scenarioDeleteLine (m org : Int) : StoredLine :=
  { labels := [("stream", changesStream), ("org_id", formatInt org)]
    T := m * 1000000
    V := marshalChange
      { AnnotationID := "ann-100", Operation := "delete", Created := m, Text := "",
        Tags := none } }


/-- An annotation that carries the tags "PROD-east", "staging", the empty tag and "b". -/
def taggedOne : ItemDTO :=
  { ID := 1, DashboardUID := none, PanelID := 0, UserID := 0, Text := "one",
    Tags := some ["PROD-east", "staging", "", "b"], Time := 10, TimeEnd := 10 }

/-- An annotation that carries the tag "b" twice and the tag "productive". -/
def taggedTwo : ItemDTO :=
  { ID := 2, DashboardUID := none, PanelID := 0, UserID := 0, Text := "two",
    Tags := some ["b", "b", "productive"], Time := 20, TimeEnd := 20 }

/-- The item `itemCreate` with a tag list that names the tag "a" twice. -/
def itemTagTwice : Item := { itemCreate with Tags := some ["a", "a"] }

/-- A tags query of organisation 1 with the filter "prod" and no limit. -/
def tagsProd : TagsQuery := { OrgID := 1, Tag := "prod", Limit := 0 }

/-- A tags query of organisation 1 with no filter and no limit. -/
def tagsAll : TagsQuery := { OrgID := 1, Tag := "", Limit := 0 }

/-- An update of `ann-1` made at 200 with the text "first". -/
def tieFirst : ChangeEntry :=
  { AnnotationID := "ann-1", Operation := "update", Created := 200, Text := "first",
    Tags := none }

/-- An update of `ann-1` made at 200, the same millisecond as `tieFirst`, with the text
"second". -/
def tieSecond : ChangeEntry :=
  { AnnotationID := "ann-1", Operation := "update", Created := 200, Text := "second",
    Tags := none }

/-- An update of `ann-999`, the identifier of neither `entryA` nor `entryB`. -/
def orphanChange : ChangeEntry :=
  { AnnotationID := "ann-999", Operation := "update", Created := 100, Text := "lost",
    Tags := none }

/-- The item `itemCreate` as organisation 2 would add it: the same identifier 100, the text
"other". -/
def itemOtherOrg : Item := { itemCreate with OrgID := 2, Text := "other" }

/-- The annotation `Get` returns for `itemCreate` added at `clockReading`. -/
def createdDTO : ItemDTO :=
  { ID := 100, DashboardUID := none, PanelID := 0, UserID := 0, Text := "A",
    Tags := some ["x"], Time := 1700000000000, TimeEnd := 0 }

/-- A query for organisation 1 with both bounds set: from two seconds before `clockReading`
to one second after it. -/
def queryAroundNow : ItemQuery :=
  { sampleQuery with From := 1699999998000, To := 1700000001000 }
/-! ## The grouping loop -/

theorem groupStep_other (m : ChangeMap) (c : ChangeEntry) (k : String)
    (h : k ≠ c.AnnotationID) : groupStep m c k = m k := by
  unfold groupStep
  cases hm : m c.AnnotationID with
  | none => simp [h]
  | some e0 =>
    by_cases hgt : c.Created > e0.Created
    · simp [hgt, h]
    · simp [hgt]

theorem groupStep_self_none (m : ChangeMap) (c : ChangeEntry)
    (h : m c.AnnotationID = none) : groupStep m c c.AnnotationID = some c := by
  unfold groupStep
  simp [h]

theorem groupStep_self_gt (m : ChangeMap) (c e : ChangeEntry)
    (h : m c.AnnotationID = some e) (hgt : e.Created < c.Created) :
    groupStep m c c.AnnotationID = some c := by
  unfold groupStep
  simp [h, hgt]

theorem groupStep_self_le (m : ChangeMap) (c e : ChangeEntry)
    (h : m c.AnnotationID = some e) (hle : c.Created ≤ e.Created) :
    groupStep m c = m := by
  unfold groupStep
  simp [h, not_lt.mpr hle]

theorem groupStep_some (m : ChangeMap) (c e : ChangeEntry) (k : String)
    (h : groupStep m c k = some e) : m k = some e ∨ (e = c ∧ c.AnnotationID = k) := by
  by_cases hk : k = c.AnnotationID
  · subst hk
    cases hm : m c.AnnotationID with
    | none =>
      rw [groupStep_self_none m c hm] at h
      exact Or.inr ⟨(Option.some.inj h).symm, rfl⟩
    | some e0 =>
      by_cases hgt : e0.Created < c.Created
      · rw [groupStep_self_gt m c e0 hm hgt] at h
        exact Or.inr ⟨(Option.some.inj h).symm, rfl⟩
      · rw [groupStep_self_le m c e0 hm (not_lt.mp hgt), hm] at h
        exact Or.inl h
  · rw [groupStep_other m c k hk] at h
    exact Or.inl h

theorem foldl_groupStep_some (l : List ChangeEntry) :
    ∀ (m : ChangeMap) (k : String) (e : ChangeEntry),
      (l.foldl groupStep m) k = some e → m k = some e ∨ (e ∈ l ∧ e.AnnotationID = k) := by
  induction l with
  | nil => intro m k e h; exact Or.inl h
  | cons c l ih =>
    intro m k e h
    rw [List.foldl_cons] at h
    rcases ih (groupStep m c) k e h with h1 | ⟨h1, h2⟩
    · rcases groupStep_some m c e k h1 with h3 | ⟨h3, h4⟩
      · exact Or.inl h3
      · exact Or.inr ⟨by simp [h3], by rw [h3]; exact h4⟩
    · exact Or.inr ⟨List.mem_cons_of_mem _ h1, h2⟩

theorem foldl_groupStep_none (l : List ChangeEntry) :
    ∀ (m : ChangeMap) (k : String), m k = none → (∀ c ∈ l, c.AnnotationID ≠ k) →
      (l.foldl groupStep m) k = none := by
  induction l with
  | nil => intro m k h _; exact h
  | cons c l ih =>
    intro m k h hl
    rw [List.foldl_cons]
    apply ih
    · rw [groupStep_other m c k (fun hk => hl c (List.mem_cons_self _ _) hk.symm)]
      exact h
    · intro c1 hc1
      exact hl c1 (List.mem_cons_of_mem _ hc1)

theorem foldl_groupStep_keep (post : List ChangeEntry) :
    ∀ (m : ChangeMap) (D : ChangeEntry), m D.AnnotationID = some D →
      (∀ c ∈ post, c.AnnotationID = D.AnnotationID → c.Created ≤ D.Created) →
      (post.foldl groupStep m) D.AnnotationID = some D := by
  induction post with
  | nil => intro m D h _; exact h
  | cons c post ih =>
    intro m D h hpost
    rw [List.foldl_cons]
    apply ih
    · by_cases hk : c.AnnotationID = D.AnnotationID
      · have hle : c.Created ≤ D.Created := hpost c (List.mem_cons_self _ _) hk
        rw [groupStep_self_le m c D (by rw [hk]; exact h) hle]
        exact h
      · rw [groupStep_other m c _ (fun hk2 => hk hk2.symm)]
        exact h
    · intro c1 hc1
      exact hpost c1 (List.mem_cons_of_mem _ hc1)

/-- The change the map holds for an identifier: the one before which every change of the
identifier is strictly older and after which none is newer. -/
theorem groupChanges_at (pre post : List ChangeEntry) (D : ChangeEntry)
    (hpre : ∀ c ∈ pre, c.AnnotationID = D.AnnotationID → c.Created < D.Created)
    (hpost : ∀ c ∈ post, c.AnnotationID = D.AnnotationID → c.Created ≤ D.Created) :
    groupChanges (pre ++ D :: post) D.AnnotationID = some D := by
  unfold groupChanges
  rw [List.foldl_append, List.foldl_cons]
  apply foldl_groupStep_keep post _ D _ hpost
  cases hm : (pre.foldl groupStep (fun _ => none)) D.AnnotationID with
  | none => exact groupStep_self_none _ D hm
  | some e0 =>
    rcases foldl_groupStep_some pre _ _ _ hm with h1 | ⟨h1, h2⟩
    · exact absurd h1 (by simp)
    · exact groupStep_self_gt _ D e0 hm (hpre e0 h1 h2)

/-- A change that is strictly newer than every other change of its identifier is the one the
map holds, wherever it stands in the slice. -/
theorem groupChanges_of_strict_max (changes : List ChangeEntry) (U : ChangeEntry)
    (hU : U ∈ changes)
    (hmax : ∀ c ∈ changes, c.AnnotationID = U.AnnotationID → c ≠ U → c.Created < U.Created) :
    groupChanges changes U.AnnotationID = some U := by
  obtain ⟨pre, post, rfl, hnot⟩ := List.eq_append_cons_of_mem hU
  apply groupChanges_at
  · intro c hc hid
    exact hmax c (by simp [hc]) hid (fun h => hnot (h ▸ hc))
  · intro c hc hid
    by_cases hcu : c = U
    · rw [hcu]
    · exact le_of_lt (hmax c (by simp [hc]) hid hcu)

theorem groupChanges_none (changes : List ChangeEntry) (k : String)
    (h : ∀ c ∈ changes, c.AnnotationID ≠ k) : groupChanges changes k = none :=
  foldl_groupStep_none changes _ k rfl h

/-- Among the changes of an identifier that has one, some change is the newest. -/
theorem exists_newest (changes : List ChangeEntry) (k : String)
    (h : ∃ c ∈ changes, c.AnnotationID = k) :
    ∃ U ∈ changes, U.AnnotationID = k ∧
      ∀ c ∈ changes, c.AnnotationID = k → c.Created ≤ U.Created := by
  induction changes with
  | nil => obtain ⟨c, hc, _⟩ := h; exact absurd hc (List.not_mem_nil _)
  | cons a l ih =>
    by_cases hl : ∃ c ∈ l, c.AnnotationID = k
    · obtain ⟨U, hU, hUk, hUmax⟩ := ih hl
      by_cases ha : a.AnnotationID = k ∧ U.Created < a.Created
      · refine ⟨a, List.mem_cons_self _ _, ha.1, ?_⟩
        intro c hc hck
        rcases List.mem_cons.mp hc with rfl | hc
        · exact le_refl _
        · exact le_trans (hUmax c hc hck) (le_of_lt ha.2)
      · refine ⟨U, List.mem_cons_of_mem _ hU, hUk, ?_⟩
        intro c hc hck
        rcases List.mem_cons.mp hc with rfl | hc
        · by_contra hlt
          exact ha ⟨hck, not_le.mp hlt⟩
        · exact hUmax c hc hck
    · obtain ⟨c, hc, hck⟩ := h
      rcases List.mem_cons.mp hc with rfl | hc
      · refine ⟨c, List.mem_cons_self _ _, hck, ?_⟩
        intro c1 hc1 hc1k
        rcases List.mem_cons.mp hc1 with rfl | hc1
        · exact le_refl _
        · exact absurd ⟨c1, hc1, hc1k⟩ hl
      · exact absurd ⟨c, hc, hck⟩ hl

/-! ## Sorting and the limit -/

theorem insertSorted_perm {α : Type} (less : α → α → Bool) (x : α) (l : List α) :
    (insertSorted less x l).Perm (x :: l) := by
  induction l with
  | nil => exact List.Perm.refl _
  | cons y ys ih =>
    unfold insertSorted
    by_cases h : less y x = true
    · simp only [h, if_true]
      exact ((List.Perm.cons y ih).trans (List.Perm.swap x y ys))
    · simp only [h]
      exact List.Perm.refl _

theorem sortSlice_perm {α : Type} (less : α → α → Bool) (l : List α) :
    (sortSlice less l).Perm l := by
  induction l with
  | nil => exact List.Perm.refl _
  | cons x xs ih =>
    unfold sortSlice
    exact (insertSorted_perm less x _).trans (List.Perm.cons x ih)

theorem insertSorted_pairwise {α : Type} (less : α → α → Bool) (R : α → α → Prop)
    (htrans : ∀ a b c, R a b → R b c → R a c)
    (hlt : ∀ a b, less a b = true → R a b)
    (hnlt : ∀ a b, less a b = false → R b a)
    (x : α) (l : List α) (hl : l.Pairwise R) : (insertSorted less x l).Pairwise R := by
  induction l with
  | nil => simp [insertSorted]
  | cons y ys ih =>
    have hy := List.pairwise_cons.mp hl
    unfold insertSorted
    by_cases h : less y x = true
    · simp only [h, if_true]
      refine List.pairwise_cons.mpr ⟨?_, ih hy.2⟩
      intro z hz
      rcases List.mem_cons.mp ((insertSorted_perm less x ys).subset hz) with rfl | hz
      · exact hlt y z h
      · exact hy.1 z hz
    · simp only [h]
      have hxy : R x y := hnlt y x (by simpa using h)
      refine List.pairwise_cons.mpr ⟨?_, hl⟩
      intro z hz
      rcases List.mem_cons.mp hz with rfl | hz
      · exact hxy
      · exact htrans x y z hxy (hy.1 z hz)

theorem sortSlice_pairwise {α : Type} (less : α → α → Bool) (R : α → α → Prop)
    (htrans : ∀ a b c, R a b → R b c → R a c)
    (hlt : ∀ a b, less a b = true → R a b)
    (hnlt : ∀ a b, less a b = false → R b a)
    (l : List α) : (sortSlice less l).Pairwise R := by
  induction l with
  | nil => simp [sortSlice]
  | cons x xs ih =>
    unfold sortSlice
    exact insertSorted_pairwise less R htrans hlt hnlt x _ ih

theorem descByTime_trans (a b c : ItemDTO) (h1 : descByTime a b) (h2 : descByTime b c) :
    descByTime a c := by
  unfold descByTime at *
  omega

theorem descByTime_of_dtoLess (a b : ItemDTO) (h : dtoLess a b = true) : descByTime a b := by
  unfold dtoLess at h
  unfold descByTime
  by_cases ht : a.Time = b.Time
  · simp [ht] at h
    exact Or.inr ⟨ht, le_of_lt h⟩
  · simp [ht] at h
    exact Or.inl h

theorem descByTime_of_not_dtoLess (a b : ItemDTO) (h : dtoLess a b = false) :
    descByTime b a := by
  unfold dtoLess at h
  unfold descByTime
  by_cases ht : a.Time = b.Time
  · simp [ht] at h
    exact Or.inr ⟨ht.symm, h⟩
  · simp [ht] at h
    exact Or.inl (lt_of_le_of_ne h ht)

theorem sortSlice_dtoLess_sorted (l : List ItemDTO) :
    (sortSlice dtoLess l).Pairwise descByTime :=
  sortSlice_pairwise dtoLess descByTime descByTime_trans descByTime_of_dtoLess
    descByTime_of_not_dtoLess l

theorem applyLimit_sublist (q : ItemQuery) (l : List ItemDTO) :
    (applyLimit q l).Sublist l := by
  unfold applyLimit
  split
  · exact List.take_sublist _ _
  · exact List.Sublist.refl _

theorem applyLimit_of_fits (q : ItemQuery) (l : List ItemDTO)
    (h : q.Limit ≤ 0 ∨ (l.length : Int) ≤ q.Limit) : applyLimit q l = l := by
  unfold applyLimit
  rw [if_neg]
  omega

/-! ## The reconciliation loop -/

theorem mergeLoop_fst (m : ChangeMap) (l : List AnnotationEntry) :
    (mergeLoop m l).1 = l.filterMap (reconcile m) := by
  induction l with
  | nil => rfl
  | cons a l ih =>
    unfold mergeLoop
    cases hm : m a.ID with
    | none => simp [reconcile, hm, List.filterMap_cons, ih]
    | some c =>
      by_cases hd : c.Operation = "delete"
      · simp [reconcile, hm, hd, List.filterMap_cons, ih]
      · simp [reconcile, hm, hd, List.filterMap_cons, ih]

theorem mergeLoop_snd (m : ChangeMap) (l : List AnnotationEntry) :
    (mergeLoop m l).2 = l.map (entryAfter m) := by
  induction l with
  | nil => rfl
  | cons a l ih =>
    unfold mergeLoop
    cases hm : m a.ID with
    | none => simp [entryAfter, hm, ih]
    | some c =>
      by_cases hd : c.Operation = "delete"
      · have hu : ¬ c.Operation = "update" := by rw [hd]; decide
        simp [entryAfter, hm, hd, ih]
      · simp [entryAfter, hm, hd, ih]

theorem Merge_of_changes (entries : List AnnotationEntry) (changes : List ChangeEntry)
    (q : ItemQuery) (h : changes ≠ []) :
    Merge entries changes q =
      applyLimit q (sortSlice dtoLess (entries.filterMap (reconcile (groupChanges changes)))) := by
  unfold Merge MergeRun
  have hlen : ¬ changes.length = 0 := fun h0 => h (List.length_eq_zero.mp h0)
  simp only [hlen, if_false]
  rw [mergeLoop_fst]

theorem MergeRun_snd_of_changes (entries : List AnnotationEntry) (changes : List ChangeEntry)
    (q : ItemQuery) (h : changes ≠ []) :
    (MergeRun entries changes q).2 = entries.map (entryAfter (groupChanges changes)) := by
  unfold MergeRun
  have hlen : ¬ changes.length = 0 := fun h0 => h (List.length_eq_zero.mp h0)
  simp only [hlen, if_false]
  rw [mergeLoop_snd]

theorem Merge_no_changes (entries : List AnnotationEntry) (q : ItemQuery) :
    Merge entries [] q = entries.map annotationToDTO := by
  simp [Merge, MergeRun, annotationsToDTOs]

/-- With at least one change entry the result of `Merge` is sorted descending by start time,
ties descending by end time. -/
theorem Merge_sorted_of_changes (entries : List AnnotationEntry) (changes : List ChangeEntry)
    (q : ItemQuery) (h : changes ≠ []) :
    (Merge entries changes q).Pairwise descByTime := by
  rw [Merge_of_changes entries changes q h]
  exact (sortSlice_dtoLess_sorted _).sublist (applyLimit_sublist q _)

/-- With at least one change entry and a positive limit, `Merge` returns at most `Limit`
annotations: the first `Limit` of the sorted reconciled set when that set is larger. -/
theorem Merge_limit_of_changes (entries : List AnnotationEntry) (changes : List ChangeEntry)
    (q : ItemQuery) (h : changes ≠ []) (hq : 0 < q.Limit) :
    ((Merge entries changes q).length : Int) ≤ q.Limit ∧
    (Merge entries changes q).Pairwise descByTime ∧
    (q.Limit < ((entries.filterMap (reconcile (groupChanges changes))).length : Int) →
      Merge entries changes q =
        (sortSlice dtoLess (entries.filterMap (reconcile (groupChanges changes)))).take
          q.Limit.toNat) := by
  refine ⟨?_, Merge_sorted_of_changes entries changes q h, ?_⟩
  · rw [Merge_of_changes entries changes q h]
    unfold applyLimit
    split
    · rw [List.length_take]
      omega
    · omega
  · intro hlt
    rw [Merge_of_changes entries changes q h]
    unfold applyLimit
    rw [if_pos]
    refine ⟨hq, ?_⟩
    rw [(sortSlice_perm dtoLess _).length_eq]
    exact hlt

/-! ## Effect of one change on one entry -/

theorem annotationToDTO_applyChanges (e : AnnotationEntry) (U : ChangeEntry) :
    annotationToDTO (applyChanges e U) = updatedView e U := by
  unfold applyChanges updatedView annotationToDTO
  by_cases ht : U.Text = "" <;> cases hg : U.Tags <;> simp [ht]

theorem applyChanges_fixed (e : AnnotationEntry) (U : ChangeEntry) :
    (applyChanges e U).ID = e.ID ∧ (applyChanges e U).Time = e.Time ∧
      (applyChanges e U).TimeEnd = e.TimeEnd := by
  unfold applyChanges
  by_cases ht : U.Text = "" <;> cases hg : U.Tags <;> simp [ht]

theorem applyChanges_idem (e : AnnotationEntry) (U : ChangeEntry) :
    applyChanges (applyChanges e U) U = applyChanges e U := by
  unfold applyChanges
  by_cases ht : U.Text = "" <;> cases hg : U.Tags <;> simp [ht]

theorem entryAfter_fixed (m : ChangeMap) (e : AnnotationEntry) :
    (entryAfter m e).ID = e.ID ∧ (entryAfter m e).Time = e.Time ∧
      (entryAfter m e).TimeEnd = e.TimeEnd := by
  unfold entryAfter
  cases hm : m e.ID with
  | none => simp
  | some c =>
    by_cases hu : c.Operation = "update"
    · simp only [hu, if_true]
      exact applyChanges_fixed e c
    · simp [hu]

theorem entryAfter_idem (m : ChangeMap) (e : AnnotationEntry) :
    entryAfter m (entryAfter m e) = entryAfter m e := by
  have hid := (entryAfter_fixed m e).1
  cases hm : m e.ID with
  | none => simp [entryAfter, hm]
  | some c =>
    by_cases hu : c.Operation = "update"
    · have h1 : entryAfter m e = applyChanges e c := by simp [entryAfter, hm, hu]
      rw [h1] at hid ⊢
      unfold entryAfter
      rw [hid, hm]
      simp only [hu, if_true]
      exact applyChanges_idem e c
    · have h1 : entryAfter m e = e := by simp [entryAfter, hm, hu]
      rw [h1, h1]

theorem reconcile_entryAfter (m : ChangeMap) (e : AnnotationEntry) :
    reconcile m (entryAfter m e) = reconcile m e := by
  have hid := (entryAfter_fixed m e).1
  cases hm : m e.ID with
  | none => simp [entryAfter, reconcile, hm]
  | some c =>
    by_cases hu : c.Operation = "update"
    · have h1 : entryAfter m e = applyChanges e c := by simp [entryAfter, hm, hu]
      rw [h1] at hid ⊢
      unfold reconcile
      rw [hid, hm]
      simp only [hu, if_true]
      rw [applyChanges_idem]
    · have h1 : entryAfter m e = e := by simp [entryAfter, hm, hu]
      rw [h1]

theorem reconcile_update (m : ChangeMap) (e : AnnotationEntry) (U : ChangeEntry)
    (hm : m e.ID = some U) (hop : U.Operation = "update") :
    reconcile m e = some (updatedView e U) := by
  have hd : ¬ U.Operation = "delete" := by rw [hop]; decide
  unfold reconcile
  rw [hm]
  simp only [hd, if_false]
  rw [if_pos hop, annotationToDTO_applyChanges]

theorem reconcile_delete (m : ChangeMap) (e : AnnotationEntry) (D : ChangeEntry)
    (hm : m e.ID = some D) (hop : D.Operation = "delete") : reconcile m e = none := by
  unfold reconcile
  rw [hm]
  simp [hop]

theorem reconcile_fixed (m : ChangeMap) (e : AnnotationEntry) (d : ItemDTO)
    (h : reconcile m e = some d) :
    d.ID = numericID e.ID ∧ d.Time = e.Time ∧ d.TimeEnd = e.TimeEnd := by
  unfold reconcile at h
  cases hm : m e.ID with
  | none =>
    rw [hm] at h
    simp only [Option.some.injEq] at h
    subst h
    exact ⟨rfl, rfl, rfl⟩
  | some c =>
    rw [hm] at h
    by_cases hd : c.Operation = "delete"
    · simp [hd] at h
    · simp only [hd, if_false, Option.some.injEq] at h
      subst h
      by_cases hu : c.Operation = "update"
      · simp only [hu, if_true]
        have hf := applyChanges_fixed e c
        simp only [annotationToDTO]
        rw [hf.1, hf.2.1, hf.2.2]
        exact ⟨rfl, rfl, rfl⟩
      · simp only [hu, if_false]
        exact ⟨rfl, rfl, rfl⟩

theorem filterMap_reconcile_drop (m : ChangeMap) (k : String) (D : ChangeEntry)
    (hm : m k = some D) (hop : D.Operation = "delete") (l : List AnnotationEntry) :
    l.filterMap (reconcile m) =
      (l.filter (fun e => decide (e.ID ≠ k))).filterMap (reconcile m) := by
  induction l with
  | nil => rfl
  | cons a l ih =>
    by_cases ha : a.ID = k
    · have hr : reconcile m a = none := reconcile_delete m a D (by rw [ha]; exact hm) hop
      rw [List.filterMap_cons, hr, List.filter_cons]
      simp only [ha, ne_eq, not_true_eq_false, decide_False]
      exact ih
    · rw [List.filter_cons]
      simp only [ha, ne_eq, not_false_eq_true, decide_True, if_true]
      rw [List.filterMap_cons, List.filterMap_cons, ih]

/-! ## Identifier encoding and decoding -/

theorem digitChar_spec (d : Nat) (h : d < 10) :
    (Char.ofNat (48 + d)).isDigit = true ∧ (Char.ofNat (48 + d)).toNat - 48 = d := by
  interval_cases d <;> decide

theorem parseDigits_natDigitsAux (fuel : Nat) :
    ∀ (n : Nat) (acc : List Char), n < fuel →
      parseDigits (natDigitsAux fuel n acc) 0 = parseDigits acc n := by
  induction fuel with
  | zero => intro n acc h; omega
  | succ fuel ih =>
    intro n acc h
    have hd := digitChar_spec (n % 10) (Nat.mod_lt _ (by decide))
    unfold natDigitsAux
    by_cases h0 : n / 10 = 0
    · simp only [h0, if_true, parseDigits, hd.1, hd.2]
      congr 1
      omega
    · simp only [h0, if_false]
      rw [ih (n / 10) _ (by omega)]
      simp only [parseDigits, hd.1, hd.2, if_true]
      congr 1
      omega

theorem natDigitsAux_head (fuel : Nat) :
    ∀ (n : Nat) (acc : List Char), n < fuel →
      ∃ c cs, natDigitsAux fuel n acc = c :: cs ∧ c.isDigit = true := by
  induction fuel with
  | zero => intro n acc h; omega
  | succ fuel ih =>
    intro n acc h
    unfold natDigitsAux
    by_cases h0 : n / 10 = 0
    · simp only [h0, if_true]
      exact ⟨_, _, rfl, (digitChar_spec (n % 10) (Nat.mod_lt _ (by decide))).1⟩
    · simp only [h0, if_false]
      exact ih (n / 10) _ (by omega)

theorem parseMagnitude_natDigits (n : Nat) : parseMagnitude (natDigits n) = some n := by
  obtain ⟨c, cs, hcs, _⟩ := natDigitsAux_head (n + 1) n [] (by omega)
  have hp := parseDigits_natDigitsAux (n + 1) n [] (by omega)
  unfold natDigits at *
  rw [hcs] at hp ⊢
  simp only [parseMagnitude]
  rw [hp]
  rfl

/-- Decoding the decimal form of an `int64` gives the number back. -/
theorem parseID_formatInt (n : Int) (hlo : -(2 ^ 63) ≤ n) (hhi : n < 2 ^ 63) :
    parseID (formatInt n) = some n := by
  unfold formatInt
  by_cases hneg : n < 0
  · simp only [hneg, if_true, parseID, String.toList]
    have h1 : ¬ ('-' = '+') := by decide
    simp only [h1, if_false, if_true, parseMagnitude_natDigits]
    have h2 : n.natAbs ≤ 2 ^ 63 := by omega
    simp only [h2, if_true]
    congr 1
    omega
  · simp only [hneg, if_false, parseID, String.toList]
    obtain ⟨c, cs, hcs, hc⟩ := natDigitsAux_head (n.toNat + 1) n.toNat [] (by omega)
    have hm := parseMagnitude_natDigits n.toNat
    unfold natDigits at *
    rw [hcs] at hm ⊢
    have h1 : ¬ (c = '+') := by intro h; rw [h] at hc; exact absurd hc (by decide)
    have h2 : ¬ (c = '-') := by intro h; rw [h] at hc; exact absurd hc (by decide)
    simp only [h1, h2, if_false, hm]
    have h3 : n.toNat < 2 ^ 63 := by omega
    simp only [h3, if_true]
    congr 1
    omega

theorem formatInt_toList_ne_nil (n : Int) : ∃ c cs, (formatInt n).toList = c :: cs := by
  unfold formatInt
  by_cases hneg : n < 0
  · simp only [hneg, if_true, String.toList]
    exact ⟨_, _, rfl⟩
  · simp only [hneg, if_false, String.toList]
    obtain ⟨c, cs, hcs, _⟩ := natDigitsAux_head (n.toNat + 1) n.toNat [] (by omega)
    exact ⟨c, cs, hcs⟩

/-- The projection decodes the identifier string of the write path back to the number. -/
theorem numericID_annotationID (n : Int) (hlo : -(2 ^ 63) ≤ n) (hhi : n < 2 ^ 63) :
    numericID (annotationID n) = n := by
  obtain ⟨c, cs, hcs⟩ := formatInt_toList_ne_nil n
  have hp := parseID_formatInt n hlo hhi
  have hs : String.mk (c :: cs) = formatInt n := by
    rw [← hcs]
    rfl
  unfold numericID annotationID
  have hl : ("ann-" ++ formatInt n).toList = 'a' :: 'n' :: 'n' :: '-' :: c :: cs := by
    have hcs1 : (formatInt n).data = c :: cs := hcs
    rw [String.toList, String.data_append, hcs1]
    rfl
  rw [hl]
  simp only [hs, hp]

/-! ## Claims on the merge engine -/

/-- C1, failing input: with an empty change list `Merge` returns the projections in input
order without sorting them; for two entries with start times 10 and 20 the result lists the
start time 10 first, so it is not in descending start-time order. -/
theorem Merge_no_changes_not_sorted :
    Merge [entryA, entryB] [] sampleQuery = [annotationToDTO entryA, annotationToDTO entryB] ∧
    (annotationToDTO entryA).Time = 10 ∧ (annotationToDTO entryB).Time = 20 ∧
    ¬ (Merge [entryA, entryB] [] sampleQuery).Pairwise descByTime := by
  decide

/-- C2, failing input: with an empty change list `Merge` does not apply the limit; with
`Limit = 1` and two entries it returns two annotations. -/
theorem Merge_no_changes_over_limit :
    Merge [entryA, entryB] [] { sampleQuery with Limit := 1 } =
      [annotationToDTO entryA, annotationToDTO entryB] ∧
    (Merge [entryA, entryB] [] { sampleQuery with Limit := 1 }).length = 2 := by
  decide

/-- C3: when the change of an entry's identifier with the strictly greatest `Created` is an
update `U`, the annotation `Merge` returns for the entry is the projection of the entry as
created with `U`'s text when non-empty and `U`'s tags when non-nil, and nothing of any older
change: it is the whole result for the entry alone, and a member of the result for every
entry list that holds the entry and is not truncated by the limit. -/
theorem Merge_latest_update_wins (e : AnnotationEntry) (changes : List ChangeEntry)
    (U : ChangeEntry) (q : ItemQuery) (hU : U ∈ changes) (hid : U.AnnotationID = e.ID)
    (hop : U.Operation = "update")
    (hmax : ∀ c ∈ changes, c.AnnotationID = e.ID → c ≠ U → c.Created < U.Created) :
    Merge [e] changes q = [updatedView e U] ∧
    ∀ entries : List AnnotationEntry, e ∈ entries →
      (q.Limit ≤ 0 ∨ (entries.length : Int) ≤ q.Limit) →
      updatedView e U ∈ Merge entries changes q := by
  have hne : changes ≠ [] := List.ne_nil_of_mem hU
  have hm : groupChanges changes e.ID = some U := by
    rw [← hid]
    exact groupChanges_of_strict_max changes U hU (by rw [hid]; exact hmax)
  have hr := reconcile_update _ e U hm hop
  constructor
  · rw [Merge_of_changes [e] changes q hne]
    simp only [List.filterMap_cons, hr, List.filterMap_nil, sortSlice, insertSorted]
    apply applyLimit_of_fits
    simp only [List.length_singleton]
    omega
  · intro entries he hfit
    rw [Merge_of_changes entries changes q hne, applyLimit_of_fits]
    · apply (sortSlice_perm dtoLess _).mem_iff.mpr
      exact List.mem_filterMap.mpr ⟨e, he, hr⟩
    · rw [(sortSlice_perm dtoLess _).length_eq]
      have := List.length_filterMap_le (reconcile (groupChanges changes)) entries
      omega

/-- Witness of C3: of an older update, a delete and a newer update of `ann-1`, in any slice
order, the newer update alone shapes the annotation. -/
theorem Merge_latest_update_wins_witness :
    Merge [entryA] [updateNew, deleteMid, updateOld] sampleQuery =
      [updatedView entryA updateNew] ∧
    (updatedView entryA updateNew).Text = "new" ∧
    (updatedView entryA updateNew).Tags = some ["x"] :=
  ⟨(Merge_latest_update_wins entryA [updateNew, deleteMid, updateOld] updateNew sampleQuery
      (by decide) (by decide) (by decide) (by decide)).1, by decide, by decide⟩

/-- C4: when the change of identifier `X` with the strictly greatest `Created` is a delete,
`Merge` returns what it returns for the entry list without the entries of identifier `X`,
and nothing at all when every entry has identifier `X`; older changes of `X` play no part. -/
theorem Merge_latest_delete_suppresses (entries : List AnnotationEntry)
    (changes : List ChangeEntry) (D : ChangeEntry) (q : ItemQuery) (hD : D ∈ changes)
    (hop : D.Operation = "delete")
    (hmax : ∀ c ∈ changes, c.AnnotationID = D.AnnotationID → c ≠ D →
      c.Created < D.Created) :
    Merge entries changes q =
      Merge (entries.filter (fun e => decide (e.ID ≠ D.AnnotationID))) changes q ∧
    ((∀ e ∈ entries, e.ID = D.AnnotationID) → Merge entries changes q = []) := by
  have hne : changes ≠ [] := List.ne_nil_of_mem hD
  have hm := groupChanges_of_strict_max changes D hD hmax
  have hdrop := filterMap_reconcile_drop _ _ D hm hop entries
  constructor
  · rw [Merge_of_changes entries changes q hne, Merge_of_changes _ changes q hne, ← hdrop]
  · intro hall
    have hnil : entries.filter (fun e => decide (e.ID ≠ D.AnnotationID)) = [] := by
      apply List.filter_eq_nil_iff.mpr
      intro a ha
      simp [hall a ha]
    rw [Merge_of_changes entries changes q hne, hdrop, hnil]
    simp [sortSlice, applyLimit]

/-- Witness of C4: a delete made at 300, after updates made at 100 and 200, removes `ann-1`
from the result and leaves `ann-2`. -/
theorem Merge_latest_delete_suppresses_witness :
    Merge [entryA, entryB] [updateOld, deleteLast, updateNew] sampleQuery =
      Merge [entryB] [updateOld, deleteLast, updateNew] sampleQuery ∧
    Merge [entryA] [updateOld, deleteLast, updateNew] sampleQuery = [] :=
  ⟨(Merge_latest_delete_suppresses [entryA, entryB] [updateOld, deleteLast, updateNew]
      deleteLast sampleQuery (by decide) (by decide) (by decide)).1,
   (Merge_latest_delete_suppresses [entryA] [updateOld, deleteLast, updateNew]
      deleteLast sampleQuery (by decide) (by decide) (by decide)).2 (by decide)⟩

/-- C5, counterexample: the change list holds a delete of `ann-1` made at 150 and an update
of `ann-1` made at 200; `Merge` returns the annotation of `ann-1`, with the update applied. -/
theorem Merge_delete_not_terminal :
    deleteMid ∈ [deleteMid, updateNew] ∧ deleteMid.Operation = "delete" ∧
    deleteMid.AnnotationID = entryA.ID ∧
    Merge [entryA] [deleteMid, updateNew] sampleQuery = [updatedView entryA updateNew] ∧
    Merge [entryA] [deleteMid, updateNew] sampleQuery ≠ [] := by
  decide

/-- C5, amended: a delete of identifier `X` suppresses the entries of `X` when every change
of `X` before it in the change list has a smaller `Created` and no change of `X` after it has
a greater one; then `Merge` returns what it returns without the entries of `X`. -/
theorem Merge_delete_suppresses_unless_newer (entries : List AnnotationEntry)
    (pre post : List ChangeEntry) (D : ChangeEntry) (q : ItemQuery)
    (hop : D.Operation = "delete")
    (hpre : ∀ c ∈ pre, c.AnnotationID = D.AnnotationID → c.Created < D.Created)
    (hpost : ∀ c ∈ post, c.AnnotationID = D.AnnotationID → c.Created ≤ D.Created) :
    Merge entries (pre ++ D :: post) q =
      Merge (entries.filter (fun e => decide (e.ID ≠ D.AnnotationID))) (pre ++ D :: post) q ∧
    ((∀ e ∈ entries, e.ID = D.AnnotationID) → Merge entries (pre ++ D :: post) q = []) := by
  have hne : pre ++ D :: post ≠ [] := by simp
  have hm := groupChanges_at pre post D hpre hpost
  have hdrop := filterMap_reconcile_drop _ _ D hm hop entries
  constructor
  · rw [Merge_of_changes entries _ q hne, Merge_of_changes _ _ q hne, ← hdrop]
  · intro hall
    have hnil : entries.filter (fun e => decide (e.ID ≠ D.AnnotationID)) = [] := by
      apply List.filter_eq_nil_iff.mpr
      intro a ha
      simp [hall a ha]
    rw [Merge_of_changes entries _ q hne, hdrop, hnil]
    simp [sortSlice, applyLimit]

/-- Witness of C5 as amended: after an update made at 100, a delete made at 150 followed in
the slice by an update with the same `Created` suppresses `ann-1`. -/
theorem Merge_delete_suppresses_unless_newer_witness :
    Merge [entryA] ([updateOld] ++ deleteMid :: [{ updateNew with Created := 150 }])
      sampleQuery = [] :=
  (Merge_delete_suppresses_unless_newer [entryA] [updateOld] [{ updateNew with Created := 150 }]
    deleteMid sampleQuery (by decide) (by decide) (by decide)).2 (by decide)

/-- C6: for an entry whose only change is one update, `Merge` returns one annotation; its
text is the update's text when that is non-empty and the created text when it is empty; its
tags are the update's tags when those are non-nil (an empty non-nil list leaves no tags) and
the created tags when they are nil. -/
theorem Merge_single_update (e : AnnotationEntry) (changes : List ChangeEntry)
    (U : ChangeEntry) (q : ItemQuery) (hU : U ∈ changes) (hid : U.AnnotationID = e.ID)
    (hop : U.Operation = "update")
    (honly : ∀ c ∈ changes, c.AnnotationID = e.ID → c = U) :
    ∃ d : ItemDTO, Merge [e] changes q = [d] ∧
      (U.Text ≠ "" → d.Text = U.Text) ∧ (U.Text = "" → d.Text = e.Text) ∧
      (∀ tags, U.Tags = some tags → d.Tags = some tags) ∧
      (U.Tags = some [] → d.Tags = some []) ∧ (U.Tags = none → d.Tags = e.Tags) ∧
      d.ID = numericID e.ID ∧ d.Time = e.Time ∧ d.TimeEnd = e.TimeEnd := by
  have hne : changes ≠ [] := List.ne_nil_of_mem hU
  have hm : groupChanges changes e.ID = some U := by
    rw [← hid]
    apply groupChanges_of_strict_max changes U hU
    intro c hc hcid hcu
    exact absurd (honly c hc (by rw [hcid, hid])) hcu
  have hr := reconcile_update _ e U hm hop
  refine ⟨updatedView e U, ?_, ?_, ?_, ?_, ?_, ?_, rfl, rfl, rfl⟩
  · rw [Merge_of_changes [e] changes q hne]
    simp only [List.filterMap_cons, hr, List.filterMap_nil, sortSlice, insertSorted]
    apply applyLimit_of_fits
    simp only [List.length_singleton]
    omega
  · intro ht
    simp [updatedView, ht]
  · intro ht
    simp [updatedView, ht]
  · intro tags ht
    simp [updatedView, ht]
  · intro ht
    simp [updatedView, ht]
  · intro ht
    simp [updatedView, ht]

/-- Witness of C6: an update with empty text and an empty non-nil tag list keeps the text "A"
and leaves no tags. -/
theorem Merge_single_update_witness :
    ∃ d : ItemDTO, Merge [entryA] [updateClearTags] sampleQuery = [d] ∧
      d.Text = "A" ∧ d.Tags = some [] := by
  obtain ⟨d, h1, _, h3, _, h5, _⟩ :=
    Merge_single_update entryA [updateClearTags] updateClearTags sampleQuery
      (by decide) (by decide) (by decide) (by decide)
  exact ⟨d, h1, h3 (by decide), h5 (by decide)⟩

/-- C7: every annotation `Merge` returns has the numeric identifier, the start time and the
end time of one of the input entries, and the run leaves the identifier, start time and end
time of every entry as they were. -/
theorem Merge_keeps_identity (entries : List AnnotationEntry) (changes : List ChangeEntry)
    (q : ItemQuery) :
    (∀ d ∈ Merge entries changes q, ∃ e ∈ entries,
      d.ID = numericID e.ID ∧ d.Time = e.Time ∧ d.TimeEnd = e.TimeEnd) ∧
    (MergeRun entries changes q).2.map (fun e => (e.ID, e.Time, e.TimeEnd)) =
      entries.map (fun e => (e.ID, e.Time, e.TimeEnd)) := by
  by_cases hne : changes = []
  · subst hne
    constructor
    · intro d hd
      rw [Merge_no_changes] at hd
      obtain ⟨e, he, rfl⟩ := List.mem_map.mp hd
      exact ⟨e, he, rfl, rfl, rfl⟩
    · simp [MergeRun]
  · constructor
    · intro d hd
      rw [Merge_of_changes entries changes q hne] at hd
      have hd1 := (sortSlice_perm dtoLess _).mem_iff.mp ((applyLimit_sublist q _).subset hd)
      obtain ⟨e, he, hr⟩ := List.mem_filterMap.mp hd1
      exact ⟨e, he, reconcile_fixed _ e d hr⟩
    · rw [MergeRun_snd_of_changes entries changes q hne, List.map_map]
      apply List.map_congr_left
      intro e _
      have hf := entryAfter_fixed (groupChanges changes) e
      simp only [Function.comp, hf.1, hf.2.1, hf.2.2]

/-- C8: running `Merge` again on the entries in the state the first run left them, with the
same changes and query, returns the first run's list and leaves the entries in that state. -/
theorem Merge_idempotent (entries : List AnnotationEntry) (changes : List ChangeEntry)
    (q : ItemQuery) :
    Merge (MergeRun entries changes q).2 changes q = Merge entries changes q ∧
    (MergeRun (MergeRun entries changes q).2 changes q).2 = (MergeRun entries changes q).2 := by
  by_cases hne : changes = []
  · subst hne
    simp [Merge, MergeRun]
  · constructor
    · rw [MergeRun_snd_of_changes entries changes q hne, Merge_of_changes _ changes q hne,
        Merge_of_changes entries changes q hne, List.filterMap_map]
      congr 2
      apply List.filterMap_congr
      intro e _
      exact reconcile_entryAfter _ e
    · rw [MergeRun_snd_of_changes entries changes q hne,
        MergeRun_snd_of_changes _ changes q hne, List.map_map]
      apply List.map_congr_left
      intro e _
      exact entryAfter_idem _ e

/-- C9: two change lists that are permutations of each other, in which the changes of each
identifier have pairwise distinct `Created` values, give the same result of `Merge`. -/
theorem Merge_order_independent (entries : List AnnotationEntry) (q : ItemQuery)
    (changes1 changes2 : List ChangeEntry) (hperm : changes1.Perm changes2)
    (hdist : changes1.Pairwise
      (fun a b => a.AnnotationID = b.AnnotationID → a.Created ≠ b.Created)) :
    Merge entries changes1 q = Merge entries changes2 q := by
  have hmap : groupChanges changes1 = groupChanges changes2 := by
    funext k
    by_cases hk : ∃ c ∈ changes1, c.AnnotationID = k
    · obtain ⟨U, hU, hUk, hUmax⟩ := exists_newest changes1 k hk
      have hsym : Symmetric
          (fun a b : ChangeEntry => a.AnnotationID = b.AnnotationID → a.Created ≠ b.Created) :=
        fun a b h hab => (h hab.symm).symm
      have hstrict : ∀ c ∈ changes1, c.AnnotationID = U.AnnotationID → c ≠ U →
          c.Created < U.Created := by
        intro c hc hcid hcu
        have hle := hUmax c hc (by rw [hcid, hUk])
        have hneq := hdist.forall hsym hc hU hcu hcid
        exact lt_of_le_of_ne hle hneq
      have h1 := groupChanges_of_strict_max changes1 U hU hstrict
      have h2 := groupChanges_of_strict_max changes2 U (hperm.mem_iff.mp hU)
        (fun c hc => hstrict c (hperm.mem_iff.mpr hc))
      rw [hUk] at h1 h2
      rw [h1, h2]
    · have hnone : ∀ c ∈ changes1, c.AnnotationID ≠ k := fun c hc hck => hk ⟨c, hc, hck⟩
      rw [groupChanges_none changes1 k hnone,
        groupChanges_none changes2 k (fun c hc => hnone c (hperm.mem_iff.mpr hc))]
  unfold Merge MergeRun
  rw [hperm.length_eq, hmap]

/-- Witness of C9: three changes of `ann-1` made at 100, 150 and 200, in two slice orders. -/
theorem Merge_order_independent_witness :
    Merge [entryA, entryB] [updateOld, deleteMid, updateNew] sampleQuery =
      Merge [entryA, entryB] [updateNew, updateOld, deleteMid] sampleQuery :=
  Merge_order_independent [entryA, entryB] sampleQuery [updateOld, deleteMid, updateNew]
    [updateNew, updateOld, deleteMid] (by decide) (by decide)

/-! ## Store: `Add` followed by `Get` -/

theorem addDefaults_fields (nowNs : Int) (item : Item) :
    (addDefaults nowNs item).OrgID = item.OrgID ∧
    (addDefaults nowNs item).DashboardUID = item.DashboardUID ∧
    (addDefaults nowNs item).PanelID = item.PanelID ∧
    (addDefaults nowNs item).Text = item.Text ∧
    (addDefaults nowNs item).Tags = item.Tags ∧
    (addDefaults nowNs item).EpochEnd = item.EpochEnd ∧
    (addDefaults nowNs item).ID = (if item.ID = 0 then Int.tdiv nowNs 1000000 else item.ID) ∧
    (addDefaults nowNs item).Epoch = (if item.Epoch = 0 then nowNs / 1000000 else item.Epoch) := by
  unfold addDefaults
  by_cases h1 : item.ID = 0 <;> by_cases h2 : item.Epoch = 0 <;>
    by_cases h3 : item.Created = 0 <;> simp [h1, h2, h3]

theorem selects_main_add (item : Item) (q : ItemQuery) (horg : q.OrgID = item.OrgID)
    (hdash : q.DashboardUID = "" ∨ q.DashboardUID = item.DashboardUID)
    (hpanel : q.PanelID ≤ 0 ∨ q.PanelID = item.PanelID) :
    selects (mainSelector q) (addLabels item) = true := by
  unfold selects mainSelector addLabels
  rw [horg]
  by_cases hq : q.DashboardUID = ""
  · by_cases hi : item.DashboardUID = ""
    · by_cases hp : q.PanelID > 0
      · have hip : item.PanelID > 0 := by omega
        have hpe : q.PanelID = item.PanelID := by omega
        simp [hq, hi, hp, hip, hpe, List.lookup]
      · by_cases hip : item.PanelID > 0 <;> simp [hq, hi, hp, hip, List.lookup]
    · by_cases hp : q.PanelID > 0
      · have hip : item.PanelID > 0 := by omega
        have hpe : q.PanelID = item.PanelID := by omega
        simp [hq, hi, hp, hip, hpe, List.lookup]
      · by_cases hip : item.PanelID > 0 <;> simp [hq, hi, hp, hip, List.lookup]
  · have hqe : q.DashboardUID = item.DashboardUID := by
      rcases hdash with h | h
      · exact absurd h hq
      · exact h
    have hi : ¬ item.DashboardUID = "" := by rw [← hqe]; exact hq
    by_cases hp : q.PanelID > 0
    · have hip : item.PanelID > 0 := by omega
      have hpe : q.PanelID = item.PanelID := by omega
      simp [hqe, hi, hp, hip, hpe, List.lookup]
    · by_cases hip : item.PanelID > 0 <;> simp [hqe, hi, hp, hip, List.lookup]

/-- The stream in which the backend returns a stored line. -/
theorem decodeEntries_response (q : ItemQuery) (ls : List StoredLine) :
    decodeEntries q (ls.map (fun l => { Stream := l.labels, Values := [{ T := l.T, V := l.V }] }))
      = ls.filterMap (fun l =>
        match l.V.asEntry with
        | none => none
        | some entry =>
          if q.AnnotationID ≠ 0 ∧
              entry.ID ≠ (if q.AnnotationID ≠ 0 then annotationID q.AnnotationID else "")
          then none else some entry) := by
  unfold decodeEntries
  induction ls with
  | nil => rfl
  | cons l ls ih =>
    simp only [List.map_cons, List.flatMap_cons, List.singleton_append, List.filterMap_cons]
    rw [ih]

theorem decodeChanges_response (ls : List StoredLine) :
    decodeChanges (ls.map (fun l => { Stream := l.labels, Values := [{ T := l.T, V := l.V }] }))
      = ls.filterMap (fun l => l.V.asChange) := by
  unfold decodeChanges
  induction ls with
  | nil => rfl
  | cons l ls ih =>
    simp only [List.map_cons, List.flatMap_cons, List.singleton_append, List.filterMap_cons]
    rw [ih]

theorem Get_memoryClient (nowNs : Int) (b : Backend) (q : ItemQuery) :
    Get memoryClient nowNs b q = .ok (Merge
      (decodeEntries q (((matching b (mainSelector q) (mainWindow nowNs q).1
        (mainWindow nowNs q).2).take (mainLimit q).toNat).map
          (fun l => { Stream := l.labels, Values := [{ T := l.T, V := l.V }] })))
      (decodeChanges (((matching b [("stream", changesStream)]
        (wrap64 (changesFrom nowNs (if q.To = 0 then { q with To := nowNs / 1000000 } else q)
          * 1000000))
        (wrap64 (nowNs / 1000000 * 1000000))).take (10000 : Int).toNat).map
          (fun l => { Stream := l.labels, Values := [{ T := l.T, V := l.V }] })))
      (if q.To = 0 then { q with To := nowNs / 1000000 } else q)) := by
  rfl

theorem Add_memoryClient (nowNs : Int) (b : Backend) (item : Item) :
    (Add memoryClient nowNs b item).1 = .ok (b ++
      [{ labels := addLabels (addDefaults nowNs item)
         T := lokiTimestamp nowNs (addDefaults nowNs item).Epoch
         V := marshalEntry (addEntry (addDefaults nowNs item)) }]) := by
  rfl

/-- An entry that no fetched change names is projected as it is, unless the limit cuts it. -/
theorem Merge_mem_of_unchanged (entries : List AnnotationEntry) (changes : List ChangeEntry)
    (q : ItemQuery) (e : AnnotationEntry) (he : e ∈ entries)
    (hc : ∀ c ∈ changes, c.AnnotationID ≠ e.ID)
    (hfit : q.Limit ≤ 0 ∨ (entries.length : Int) ≤ q.Limit) :
    annotationToDTO e ∈ Merge entries changes q := by
  by_cases hne : changes = []
  · subst hne
    rw [Merge_no_changes]
    exact List.mem_map_of_mem _ he
  · rw [Merge_of_changes entries changes q hne, applyLimit_of_fits]
    · apply (sortSlice_perm dtoLess _).mem_iff.mpr
      refine List.mem_filterMap.mpr ⟨e, he, ?_⟩
      unfold reconcile
      rw [groupChanges_none changes e.ID hc]
    · rw [(sortSlice_perm dtoLess _).length_eq]
      have := List.length_filterMap_le (reconcile (groupChanges changes)) entries
      omega


theorem selects_changes_add (item : Item) :
    selects [("stream", changesStream)] (addLabels item) = false := by
  simp [selects, addLabels, List.lookup, annotationsStream, changesStream]

theorem matching_append_one (b : Backend) (l : StoredLine) (selector : List (String × String))
    (s e : Int) (hsel : selects selector l.labels = true) (hs : s ≤ l.T) (he : l.T ≤ e) :
    matching (b ++ [l]) selector s e = matching b selector s e ++ [l] := by
  unfold matching
  rw [List.filter_append]
  congr 1
  simp [hsel, hs, he]

theorem mem_matching (b : Backend) (l : StoredLine) (selector : List (String × String))
    (s e : Int) (h : l ∈ matching b selector s e) :
    l ∈ b ∧ selects selector l.labels = true := by
  unfold matching at h
  have h1 := List.mem_filter.mp h
  simp only [Bool.and_eq_true] at h1
  exact ⟨h1.1, h1.2.1.1⟩

/-- C10, amended: over the backend that stores every pushed line, `Add` followed by `Get`
returns an annotation with the item's text, tags (an empty list read back as nil), start
time, end time and identifier (the clock's millisecond when none was supplied, which is not
zero), for a query of the item's organisation whose filters the item passes, when the window
that `queryMainStream` resolves contains the timestamp `Add` gave the log line, the backend
held fewer matching lines than the limits and no change of the identifier. -/
theorem Add_then_Get_round_trip (b : Backend) (nowAdd nowGet : Int) (item : Item)
    (q : ItemQuery)
    (hid : -(2 ^ 63) ≤ item.ID ∧ item.ID < 2 ^ 63)
    (hnow : 1000000 ≤ nowAdd ∧ nowAdd < 2 ^ 63)
    (horg : q.OrgID = item.OrgID)
    (hdash : q.DashboardUID = "" ∨ q.DashboardUID = item.DashboardUID)
    (hpanel : q.PanelID ≤ 0 ∨ q.PanelID = item.PanelID)
    (hann : q.AnnotationID = 0 ∨ q.AnnotationID = (addDefaults nowAdd item).ID)
    (hwin : (mainWindow nowGet q).1 ≤ lokiTimestamp nowAdd (addDefaults nowAdd item).Epoch ∧
      lokiTimestamp nowAdd (addDefaults nowAdd item).Epoch ≤ (mainWindow nowGet q).2)
    (hcap : ((matching b (mainSelector q) (mainWindow nowGet q).1
      (mainWindow nowGet q).2).length : Int) < mainLimit q)
    (hlim : q.Limit ≤ 0 ∨ ((matching b (mainSelector q) (mainWindow nowGet q).1
      (mainWindow nowGet q).2).length : Int) < q.Limit)
    (hchg : ∀ l ∈ b, ∀ c, l.V.asChange = some c →
      c.AnnotationID ≠ annotationID (addDefaults nowAdd item).ID) :
    ∃ (res : List ItemDTO) (d : ItemDTO),
      addThenGet b nowAdd nowGet item q = .ok res ∧ d ∈ res ∧
      d.Text = item.Text ∧ d.Tags = omitEmptyTags item.Tags ∧
      d.Time = (if item.Epoch = 0 then nowAdd / 1000000 else item.Epoch) ∧
      d.TimeEnd = item.EpochEnd ∧
      (item.ID ≠ 0 → d.ID = item.ID) ∧
      (item.ID = 0 → d.ID = nowAdd / 1000000 ∧ d.ID ≠ 0) := by
  obtain ⟨f1, f2, f3, f4, f5, f6, f7, f8⟩ := addDefaults_fields nowAdd item
  have htdiv : Int.tdiv nowAdd 1000000 = nowAdd / 1000000 :=
    Int.tdiv_eq_ediv (by omega) (by omega)
  have hidr : -(2 ^ 63) ≤ (addDefaults nowAdd item).ID ∧ (addDefaults nowAdd item).ID < 2 ^ 63 := by
    rw [f7, htdiv]
    split <;> omega
  have hget : addThenGet b nowAdd nowGet item q = Get memoryClient nowGet (b ++
      [{ labels := addLabels (addDefaults nowAdd item)
         T := lokiTimestamp nowAdd (addDefaults nowAdd item).Epoch
         V := marshalEntry (addEntry (addDefaults nowAdd item)) }]) q := rfl
  have hsel : selects (mainSelector q) (addLabels (addDefaults nowAdd item)) = true :=
    selects_main_add _ q (by rw [f1]; exact horg) (by rw [f2]; exact hdash)
      (by rw [f3]; exact hpanel)
  have hmatch := matching_append_one b
    { labels := addLabels (addDefaults nowAdd item)
      T := lokiTimestamp nowAdd (addDefaults nowAdd item).Epoch
      V := marshalEntry (addEntry (addDefaults nowAdd item)) }
    (mainSelector q) (mainWindow nowGet q).1 (mainWindow nowGet q).2 hsel hwin.1 hwin.2
  rw [hget, Get_memoryClient]
  refine ⟨_, annotationToDTO
    { addEntry (addDefaults nowAdd item) with
      Tags := omitEmptyTags (addEntry (addDefaults nowAdd item)).Tags }, rfl, ?_, ?_, ?_, ?_, ?_, ?_, ?_⟩
  · apply Merge_mem_of_unchanged
    · rw [decodeEntries_response, hmatch, List.take_of_length_le, List.filterMap_append]
      · apply List.mem_append_right
        have hkeep : ¬ (q.AnnotationID ≠ 0 ∧ annotationID (addDefaults nowAdd item).ID ≠
            (if q.AnnotationID ≠ 0 then annotationID q.AnnotationID else "")) := by
          rintro ⟨h0, h1⟩
          rcases hann with h | h
          · exact h0 h
          · rw [if_pos h0, h] at h1
            exact h1 rfl
        rw [List.filterMap_cons_some (b := { addEntry (addDefaults nowAdd item) with
          Tags := omitEmptyTags (addEntry (addDefaults nowAdd item)).Tags })]
        · exact List.mem_cons_self _ _
        · simp only [marshalEntry]
          exact if_neg hkeep
      · rw [List.length_append, List.length_singleton]
        omega
    · intro c hc
      rw [decodeChanges_response] at hc
      obtain ⟨l, hl, hlc⟩ := List.mem_filterMap.mp hc
      obtain ⟨hlb, hlsel⟩ := mem_matching _ l _ _ _ (List.mem_of_mem_take hl)
      rcases List.mem_append.mp hlb with hlb | hlb
      · exact hchg l hlb c hlc
      · rw [List.mem_singleton] at hlb
        rw [hlb, selects_changes_add] at hlsel
        exact absurd hlsel (by decide)
    · rw [decodeEntries_response]
      have h1 := List.length_filterMap_le (fun l : StoredLine =>
        match l.V.asEntry with
        | none => none
        | some entry =>
          if q.AnnotationID ≠ 0 ∧
              entry.ID ≠ (if q.AnnotationID ≠ 0 then annotationID q.AnnotationID else "")
          then none else some entry)
        ((matching (b ++
          [{ labels := addLabels (addDefaults nowAdd item)
             T := lokiTimestamp nowAdd (addDefaults nowAdd item).Epoch
             V := marshalEntry (addEntry (addDefaults nowAdd item)) }])
          (mainSelector q) (mainWindow nowGet q).1 (mainWindow nowGet q).2).take
            (mainLimit q).toNat)
      have h2 := List.Sublist.length_le (List.take_sublist (mainLimit q).toNat (matching (b ++
          [{ labels := addLabels (addDefaults nowAdd item)
             T := lokiTimestamp nowAdd (addDefaults nowAdd item).Epoch
             V := marshalEntry (addEntry (addDefaults nowAdd item)) }])
          (mainSelector q) (mainWindow nowGet q).1 (mainWindow nowGet q).2))
      nth_rewrite 2 [hmatch] at h2
      rw [List.length_append, List.length_singleton] at h2
      by_cases hto : q.To = 0 <;> simp only [hto, if_true, if_false] <;> omega
  · simp [annotationToDTO, addEntry, f4]
  · simp [annotationToDTO, addEntry, f5]
  · simp [annotationToDTO, addEntry, f8]
  · simp [annotationToDTO, addEntry, f6]
  · intro hne
    simp only [annotationToDTO, addEntry]
    rw [numericID_annotationID _ hidr.1 hidr.2, f7, if_neg hne]
  · intro h0
    simp only [annotationToDTO, addEntry]
    rw [numericID_annotationID _ hidr.1 hidr.2, f7, if_pos h0, htdiv]
    exact ⟨rfl, by omega⟩

/-- Witness of C10 as amended: the item of `itemPast` added to the empty backend and read
back with a window that is open towards the clock reading. -/
theorem Add_then_Get_round_trip_witness :
    ∃ (res : List ItemDTO) (d : ItemDTO),
      addThenGet [] clockReading clockReading itemPast { queryAroundEvent with To := 0 }
        = .ok res ∧ d ∈ res ∧
      d.Text = "deploy" ∧ d.Tags = some ["a", "b"] ∧ d.Time = 1699990000000 ∧
      d.TimeEnd = 1699990005000 ∧ d.ID = 1700000000000 := by
  obtain ⟨res, d, h1, h2, h3, h4, h5, h6, _, h8⟩ :=
    Add_then_Get_round_trip [] clockReading clockReading itemPast
      { queryAroundEvent with To := 0 }
      (by decide) (by decide) (by decide) (by decide) (by decide) (by decide) (by decide)
      (by decide) (by decide) (by simp)
  exact ⟨res, d, h1, h2, h3, h4, h5, h6, (h8 rfl).1⟩

/-- C10, counterexample: the event of the item started 10000 seconds before the clock
reading, so `Add` stamps the log line with the clock reading; a query of the item's
organisation whose window holds the item's start time ends before that stamp, and `Get`
returns no annotation. -/
theorem Add_then_Get_misses_past_event :
    queryAroundEvent.OrgID = itemPast.OrgID ∧
    queryAroundEvent.From ≤ itemPast.Epoch ∧ itemPast.Epoch ≤ queryAroundEvent.To ∧
    lokiTimestamp clockReading itemPast.Epoch = clockReading ∧
    addThenGet [] clockReading clockReading itemPast queryAroundEvent = .ok [] := by
  exact ⟨by decide, by decide, by decide, rfl, rfl⟩

/-! ## Timestamps and windows -/

theorem wrap64_of_fits (x : Int) (hlo : -(2 ^ 63) ≤ x) (hhi : x < 2 ^ 63) : wrap64 x = x := by
  unfold wrap64
  omega

theorem saturate_of_fits (x : Int) (hlo : -(2 ^ 63) ≤ x) (hhi : x < 2 ^ 63) :
    saturate x = x := by
  unfold saturate
  omega

/-- The timestamp of the log line when the event time converts to nanoseconds without
overflow. -/
theorem lokiTimestamp_of_fits (nowNs t : Int) (ht : 0 < t) (hfit : t * 1000000 < 2 ^ 63) :
    lokiTimestamp nowNs t =
      if 0 ≤ nowNs - t * 1000000 ∧ nowNs - t * 1000000 < hourNs then t * 1000000 else nowNs := by
  unfold lokiTimestamp
  have hw : wrap64 (t * 1000000) = t * 1000000 := wrap64_of_fits _ (by omega) hfit
  simp only [ht, if_true, hw, gt_iff_lt]
  unfold saturate hourNs
  by_cases h : 0 ≤ nowNs - t * 1000000 ∧ nowNs - t * 1000000 < 3600 * 1000000000
  · rw [if_pos h, if_pos]
    omega
  · rw [if_neg h, if_neg]
    omega

theorem addDefaults_epoch_of_set (nowNs : Int) (item : Item) (h : item.Epoch ≠ 0) :
    (addDefaults nowNs item).Epoch = item.Epoch := by
  rw [(addDefaults_fields nowNs item).2.2.2.2.2.2.2, if_neg h]

theorem addManyDefaults_epoch_of_set (now : Int) (i : Nat) (item : Item) (h : item.Epoch ≠ 0) :
    (addManyDefaults now i item).Epoch = item.Epoch := by
  unfold addManyDefaults
  by_cases h1 : item.ID = 0 <;> by_cases h3 : item.Created = 0 <;> simp [h1, h, h3]

/-- C17: for an item whose event time `t` is positive and converts to nanoseconds without
overflow, the timestamp of the log line that `Add` pushes, and of the one `AddMany` collects
for the item, is the event time when `0 ≤ now − t < 1 hour` and the clock reading in every
other case. -/
theorem Add_timestamp_policy (nowNs : Int) (item : Item) (ht : 0 < item.Epoch)
    (hfit : item.Epoch * 1000000 < 2 ^ 63) :
    ((0 ≤ nowNs - item.Epoch * 1000000 ∧ nowNs - item.Epoch * 1000000 < hourNs) →
      (addStream nowNs item).Values.map (fun v => v.T) = [item.Epoch * 1000000] ∧
      ∀ i, ((addManyLoop nowNs i [item]).1.flatMap (fun s => s.Values)).map (fun v => v.T) =
        [item.Epoch * 1000000]) ∧
    (¬ (0 ≤ nowNs - item.Epoch * 1000000 ∧ nowNs - item.Epoch * 1000000 < hourNs) →
      (addStream nowNs item).Values.map (fun v => v.T) = [nowNs] ∧
      ∀ i, ((addManyLoop nowNs i [item]).1.flatMap (fun s => s.Values)).map (fun v => v.T) =
        [nowNs]) := by
  have hne : item.Epoch ≠ 0 := by omega
  have hts := lokiTimestamp_of_fits nowNs item.Epoch ht hfit
  constructor
  · intro h
    rw [if_pos h] at hts
    constructor
    · simp only [addStream, List.map_cons, List.map_nil,
        addDefaults_epoch_of_set nowNs item hne, hts]
    · intro i
      simp only [addManyLoop, List.flatMap_cons, List.flatMap_nil, List.append_nil,
        List.map_cons, List.map_nil, addManyDefaults_epoch_of_set _ i item hne, hts]
  · intro h
    rw [if_neg h] at hts
    constructor
    · simp only [addStream, List.map_cons, List.map_nil,
        addDefaults_epoch_of_set nowNs item hne, hts]
    · intro i
      simp only [addManyLoop, List.flatMap_cons, List.flatMap_nil, List.append_nil,
        List.map_cons, List.map_nil, addManyDefaults_epoch_of_set _ i item hne, hts]

/-- Witness of C17: an event that started one second before the clock reading keeps its own
time as the timestamp of the log line. -/
theorem Add_timestamp_policy_witness :
    (addStream clockReading itemRecent).Values.map (fun v => v.T) = [1699999999000000000] :=
  ((Add_timestamp_policy clockReading itemRecent (by decide) (by decide)).1
    ⟨by decide, by decide⟩).1

/-- C18, failing input: the event time `farFutureEpoch` lies after the clock reading and
fits an `int64`; its product with 10^6 wraps to the time one second before the clock
reading, which passes the one-hour test, and `Add` stamps the log line with that wrapped
value and not with the clock reading. -/
theorem Add_future_event_wraps :
    clockReading / 1000000 < farFutureEpoch ∧ farFutureEpoch < 2 ^ 63 ∧
    wrap64 (farFutureEpoch * 1000000) = 1699999999000000000 ∧
    (addStream clockReading itemFarFuture).Values.map (fun v => v.T) = [1699999999000000000] ∧
    (addStream clockReading itemFarFuture).Values.map (fun v => v.T) ≠ [clockReading] := by
  refine ⟨by decide, by decide, rfl, rfl, ?_⟩
  have h : (addStream clockReading itemFarFuture).Values.map (fun v => v.T)
      = [1699999999000000000] := rfl
  rw [h]
  decide

/-- An event time after the clock reading whose nanoseconds fit an `int64` gets the clock
reading as timestamp. -/
theorem lokiTimestamp_future_of_fits (nowNs t : Int) (ht : 0 < t)
    (hfit : t * 1000000 < 2 ^ 63) (hfut : nowNs < t * 1000000) :
    lokiTimestamp nowNs t = nowNs := by
  rw [lokiTimestamp_of_fits nowNs t ht hfit, if_neg]
  omega

/-- C15, failing input: for an item with start time 1699990000000 and end time unset, the
entry in the log line `Add` pushes, and in the one `AddMany` collects, has end time 0. -/
theorem Add_leaves_end_time_unset :
    itemNoEnd.EpochEnd = 0 ∧
    (addStream clockReading itemNoEnd).Values.map
      (fun v => v.V.asEntry.map (fun e => (e.Time, e.TimeEnd))) = [some (1699990000000, 0)] ∧
    ((addManyLoop clockReading 0 [itemNoEnd]).1.flatMap (fun s => s.Values)).map
      (fun v => v.V.asEntry.map (fun e => (e.Time, e.TimeEnd))) = [some (1699990000000, 0)] := by
  exact ⟨rfl, rfl, rfl⟩

/-- The end time of the entry `Add` builds is the end time of the item as passed. -/
theorem addEntry_TimeEnd (nowNs : Int) (item : Item) :
    (addEntry (addDefaults nowNs item)).TimeEnd = item.EpochEnd := by
  simp [addEntry, (addDefaults_fields nowNs item).2.2.2.2.2.1]

/-- C19, counterexample: the upper bound `To` is set (`2 ^ 58` ms); its product with 10^6
wraps to 0, which `queryMainStream` takes for an unset bound, and the upper bound passed to
`RangeQuery` is the clock reading. -/
theorem mainWindow_wrapped_To :
    queryWrappedTo.To ≠ 0 ∧ wrap64 (queryWrappedTo.To * 1000000) = 0 ∧
    (mainWindow clockReading queryWrappedTo).2 = clockReading ∧
    (mainWindow clockReading queryWrappedTo).2 ≠ queryWrappedTo.To * 1000000 := by
  refine ⟨by decide, rfl, rfl, ?_⟩
  have h : (mainWindow clockReading queryWrappedTo).2 = clockReading := rfl
  rw [h]
  decide

/-- C19, amended: for a clock reading after the epoch and a query whose `From` and `To`
convert to nanoseconds without overflow, the lower bound passed to `RangeQuery` is
`From·10^6` when `From` is set and not older than now − 30 days, and now − 30 days when
`From` is unset or older, so it is never older than now − 30 days; the upper bound is
`To·10^6`, or the clock reading when `To` is unset. -/
theorem mainWindow_bounds (nowNs : Int) (q : ItemQuery)
    (hnow : 0 ≤ nowNs ∧ nowNs < 2 ^ 63)
    (hfrom : -(2 ^ 63) ≤ q.From * 1000000 ∧ q.From * 1000000 < 2 ^ 63)
    (hto : -(2 ^ 63) ≤ q.To * 1000000 ∧ q.To * 1000000 < 2 ^ 63) :
    ((q.From ≠ 0 ∧ nowNs - thirtyDaysNs ≤ q.From * 1000000) →
      (mainWindow nowNs q).1 = q.From * 1000000) ∧
    ((q.From = 0 ∨ q.From * 1000000 < nowNs - thirtyDaysNs) →
      (mainWindow nowNs q).1 = nowNs - thirtyDaysNs) ∧
    nowNs - thirtyDaysNs ≤ (mainWindow nowNs q).1 ∧
    (q.To ≠ 0 → (mainWindow nowNs q).2 = q.To * 1000000) ∧
    (q.To = 0 → (mainWindow nowNs q).2 = nowNs) := by
  have hwf : wrap64 (q.From * 1000000) = q.From * 1000000 := wrap64_of_fits _ hfrom.1 hfrom.2
  have hwt : wrap64 (q.To * 1000000) = q.To * 1000000 := wrap64_of_fits _ hto.1 hto.2
  have hwn : wrap64 (nowNs - thirtyDaysNs) = nowNs - thirtyDaysNs := by
    apply wrap64_of_fits <;> unfold thirtyDaysNs <;> omega
  unfold mainWindow
  simp only [hwf, hwt, hwn]
  unfold thirtyDaysNs
  refine ⟨?_, ?_, ?_, ?_, ?_⟩
  · rintro ⟨h1, h2⟩
    rw [if_neg]
    omega
  · intro h
    rw [if_pos]
    omega
  · split <;> omega
  · intro h
    rw [if_neg]
    omega
  · intro h
    rw [if_pos]
    omega

/-- Witness of C19 as amended: the window around the start of `itemPast`, read at
`clockReading`, is passed on as it is, in nanoseconds. -/
theorem mainWindow_bounds_witness :
    (mainWindow clockReading queryAroundEvent).1 = 1699989999000 * 1000000 ∧
    (mainWindow clockReading queryAroundEvent).2 = 1699990001000 * 1000000 :=
  ⟨(mainWindow_bounds clockReading queryAroundEvent (by decide) (by decide) (by decide)).1
      ⟨by decide, by decide⟩,
   (mainWindow_bounds clockReading queryAroundEvent (by decide) (by decide)
      (by decide)).2.2.2.1 (by decide)⟩

/-- C20, failing inputs: at `clockReading`, a window that is open at the start and ends one
day ahead is passed on as 31 days wide, and a window that is open at the start and ends
sixty days back is passed on with its start after its end. -/
theorem mainWindow_not_within_ceiling :
    mainWindow clockReading queryIntoFuture = (1697408000000000000, 1700086400000000000) ∧
    (mainWindow clockReading queryIntoFuture).2 - (mainWindow clockReading queryIntoFuture).1
      = 31 * 24 * hourNs ∧
    thirtyDaysNs < (mainWindow clockReading queryIntoFuture).2
      - (mainWindow clockReading queryIntoFuture).1 ∧
    mainWindow clockReading queryLongAgo = (1697408000000000000, 1694816000000000000) ∧
    (mainWindow clockReading queryLongAgo).2 < (mainWindow clockReading queryLongAgo).1 := by
  have h1 : mainWindow clockReading queryIntoFuture
      = (1697408000000000000, 1700086400000000000) := rfl
  have h2 : mainWindow clockReading queryLongAgo
      = (1697408000000000000, 1694816000000000000) := rfl
  rw [h1, h2]
  exact ⟨rfl, by decide, by decide, rfl, by decide⟩


/-! ## Identifier round trip -/

theorem parseDigits_none_of_not_digits (ds : List Char) :
    ∀ acc : Nat, ds.all Char.isDigit = false → parseDigits ds acc = none := by
  induction ds with
  | nil => intro acc h; simp at h
  | cons c cs ih =>
    intro acc h
    unfold parseDigits
    by_cases hc : c.isDigit = true
    · simp only [hc, if_true]
      apply ih
      simpa [List.all_cons, hc] using h
    · simp [hc]

theorem parseMagnitude_none_of_not_digits (ds : List Char)
    (h : ds = [] ∨ ds.all Char.isDigit = false) : parseMagnitude ds = none := by
  cases ds with
  | nil => rfl
  | cons c cs =>
    rcases h with h | h
    · exact absurd h (by simp)
    · exact parseDigits_none_of_not_digits _ 0 h

theorem parseID_none_of_not_numeric (s : String) (h : isNumeric s.toList = false) :
    parseID s = none := by
  unfold parseID
  cases hs : s.toList with
  | nil => rfl
  | cons c cs =>
    rw [hs] at h
    unfold isNumeric at h
    by_cases hp : c = '+'
    · simp only [hp, true_or, if_true] at h
      simp only [hp, if_true]
      rw [parseMagnitude_none_of_not_digits cs]
      cases cs with
      | nil => exact Or.inl rfl
      | cons d ds => exact Or.inr (by simpa using h)
    · by_cases hm : c = '-'
      · simp only [hm, or_true, if_true] at h
        have hmp : ¬ ('-' = '+') := by decide
        simp only [hm, hmp, if_true, if_false]
        rw [parseMagnitude_none_of_not_digits cs]
        cases cs with
        | nil => exact Or.inl rfl
        | cons d ds => exact Or.inr (by simpa using h)
      · simp only [hp, hm, or_self, if_false] at h
        simp only [hp, hm, if_false]
        rw [parseMagnitude_none_of_not_digits (c :: cs) (Or.inr h)]

theorem numericID_of_no_prefix (s : String) (h : ¬ ("ann-".toList <+: s.toList)) :
    numericID s = 0 := by
  unfold numericID
  split
  · rename_i c cs heq
    exact absurd ⟨c :: cs, by rw [heq]; rfl⟩ h
  · rfl

theorem numericID_of_not_numeric (rest : String) (h : isNumeric rest.toList = false) :
    numericID ("ann-" ++ rest) = 0 := by
  unfold numericID
  have hl : ("ann-" ++ rest).toList = 'a' :: 'n' :: 'n' :: '-' :: rest.toList := by
    rw [String.toList, String.data_append]
    rfl
  rw [hl]
  cases hr : rest.toList with
  | nil => rfl
  | cons c cs =>
    have hs : String.mk (c :: cs) = rest := by
      rw [← hr]
      rfl
    simp only [hs, parseID_none_of_not_numeric rest h]

/-- C14: for every `int64` id the projection decodes the identifier string of the write
path, "ann-" followed by the decimal form of id, back to id; an identifier without the
prefix "ann-", and one whose remainder is not an optional sign followed by decimal digits,
gives the numeric identifier 0 (the projection has no error result). -/
theorem identifier_round_trip :
    (∀ id : Int, -(2 ^ 63) ≤ id → id < 2 ^ 63 → numericID (annotationID id) = id) ∧
    (∀ s : String, ¬ ("ann-".toList <+: s.toList) → numericID s = 0) ∧
    (∀ rest : String, isNumeric rest.toList = false → numericID ("ann-" ++ rest) = 0) ∧
    numericID (annotationID 0) = 0 ∧ numericID (annotationID (-42)) = -42 ∧
    numericID "note-7" = 0 ∧ numericID "ann-7x" = 0 :=
  ⟨numericID_annotationID, numericID_of_no_prefix, numericID_of_not_numeric,
    by decide, by decide, by decide, by decide⟩


/-! ## `AddMany` against `Add` -/

theorem addManyDefaults_eq (nowNs : Int) (i : Nat) (item : Item)
    (h0 : 0 ≤ nowNs) (h1 : nowNs < 2 ^ 63) (hi : (i : Int) < 2 ^ 62) :
    addManyDefaults (nowNs / 1000000) i item = addDefaults nowNs (withBatchID nowNs i item) := by
  have htdiv : Int.tdiv nowNs 1000000 = nowNs / 1000000 :=
    Int.tdiv_eq_ediv h0 (by omega)
  have hw : wrap64 (nowNs / 1000000 + (i : Int)) = nowNs / 1000000 + (i : Int) := by
    apply wrap64_of_fits <;> omega
  unfold addManyDefaults addDefaults withBatchID
  rw [hw, htdiv]
  by_cases hid : item.ID = 0
  · by_cases hz : nowNs / 1000000 + (i : Int) = 0
    · have hnow : nowNs / 1000000 = 0 := by omega
      have hi0 : (i : Int) = 0 := by omega
      simp [hid, hnow, hi0]
    · simp [hid, hz]
  · simp [hid]

theorem addManyLoop_streams (nowNs : Int) (h0 : 0 ≤ nowNs) (h1 : nowNs < 2 ^ 63)
    (items : List Item) :
    ∀ i : Nat, ((i + items.length : Nat) : Int) < 2 ^ 62 →
      (addManyLoop nowNs i items).1 =
        (items.enumFrom i).map (fun p => addStream nowNs (withBatchID nowNs p.1 p.2)) := by
  induction items with
  | nil => intro i _; rfl
  | cons item rest ih =>
    intro i hi
    have hlen : (i + (item :: rest).length : Nat) = (i + 1) + rest.length := by
      simp only [List.length_cons]
      omega
    rw [hlen] at hi
    have hi1 : (i : Int) < 2 ^ 62 := by omega
    simp only [addManyLoop, List.enumFrom_cons, List.map_cons]
    rw [ih (i + 1) hi, addManyDefaults_eq nowNs i item h0 h1 hi1]
    rfl

/-- C16: under one clock reading (after the epoch), `AddMany` pushes nothing and succeeds
for the empty list, and otherwise makes one `Push` whose streams are, in input order, the
streams `Add` pushes for the items one by one, the item at index `i` that has no identifier
being given the identifier `now_ms + i`. -/
theorem AddMany_is_Add_batched {σ : Type} (client : Client σ) (nowNs : Int) (st : σ)
    (items : List Item) (h0 : 0 ≤ nowNs) (h1 : nowNs < 2 ^ 63)
    (hlen : (items.length : Int) < 2 ^ 62) :
    (AddMany client nowNs st items).1 =
      (if items = [] then .ok st
       else client.Push st
        (items.enum.map (fun p => addStream nowNs (withBatchID nowNs p.1 p.2)))) ∧
    ∀ item : Item, (Add client nowNs st item).1 = client.Push st [addStream nowNs item] := by
  constructor
  · unfold AddMany
    have hs := addManyLoop_streams nowNs h0 h1 items 0 (by simpa using hlen)
    cases items with
    | nil => rfl
    | cons item rest =>
      have hne : ¬ (addManyLoop nowNs 0 (item :: rest)).1.length = 0 := by
        simp [addManyLoop]
      simp only [hne, if_false]
      rw [hs, if_neg (by simp)]
      rfl
  · intro item
    rfl

/-- Witness of C16: a batch of an item with identifier 100 and two items without one. -/
theorem AddMany_is_Add_batched_witness :
    (AddMany memoryClient clockReading [] [itemCreate, itemPast, itemRecent]).1 =
      memoryClient.Push []
        [addStream clockReading itemCreate,
         addStream clockReading { itemPast with ID := 1700000000001 },
         addStream clockReading { itemRecent with ID := 1700000000002 }] :=
  (AddMany_is_Add_batched memoryClient clockReading [] [itemCreate, itemPast, itemRecent]
    (by decide) (by decide) (by decide)).1

/-! ## End-to-end scenarios -/

/-- C12, failing input: over the backend that stores every pushed line, an annotation is
created with tags ["x"]; one millisecond later an `Update` carries an empty non-nil tag list
(and an empty text); the change entry that `queryChangesStream` decodes has nil tags, and
`Get` returns the annotation with its tags ["x"].  An `Update` with nil tags leaves the
tags ["x"] as well. -/
theorem Update_empty_tags_not_cleared :
    itemClearTags.Tags = some [] ∧
    (updateStream (clockReading + 1000000) itemClearTags).Values.map
      (fun v => v.V.asChange.map (fun c => c.Tags)) = [some none] ∧
    (∃ b, runOps [] [.add clockReading itemCreate,
        .update (clockReading + 1000000) itemClearTags] = .ok b ∧
      Get memoryClient (clockReading + 2000000) b sampleQuery =
        .ok [{ scenarioDTO 1700000000000 with Text := "A", Tags := some ["x"] }]) ∧
    (∃ b, runOps [] [.add clockReading itemCreate,
        .update (clockReading + 1000000) (itemUpdate 1)] = .ok b ∧
      Get memoryClient (clockReading + 2000000) b sampleQuery =
        .ok [scenarioDTO 1700000000000]) :=
  ⟨rfl, rfl, ⟨_, rfl, rfl⟩, ⟨_, rfl, rfl⟩⟩

theorem Merge_length_le (entries : List AnnotationEntry) (changes : List ChangeEntry)
    (q : ItemQuery) : (Merge entries changes q).length ≤ entries.length := by
  by_cases hne : changes = []
  · subst hne
    rw [Merge_no_changes, List.length_map]
  · rw [Merge_of_changes entries changes q hne]
    have h1 := (applyLimit_sublist q
      (sortSlice dtoLess (entries.filterMap (reconcile (groupChanges changes))))).length_le
    rw [(sortSlice_perm dtoLess _).length_eq] at h1
    exact le_trans h1 (List.length_filterMap_le _ _)

theorem Merge_mem_origin (entries : List AnnotationEntry) (changes : List ChangeEntry)
    (q : ItemQuery) (d : ItemDTO) (hd : d ∈ Merge entries changes q) :
    ∃ e ∈ entries, d.ID = numericID e.ID ∧ d.Time = e.Time ∧ d.TimeEnd = e.TimeEnd := by
  by_cases hne : changes = []
  · subst hne
    rw [Merge_no_changes] at hd
    obtain ⟨e, he, rfl⟩ := List.mem_map.mp hd
    exact ⟨e, he, rfl, rfl, rfl⟩
  · rw [Merge_of_changes entries changes q hne] at hd
    have hd1 := (sortSlice_perm dtoLess _).mem_iff.mp ((applyLimit_sublist q _).subset hd)
    obtain ⟨e, he, hr⟩ := List.mem_filterMap.mp hd1
    exact ⟨e, he, reconcile_fixed _ e d hr⟩

/-- C13, counterexample: four annotations of organisation 1 are visible (a `Get` without
limit returns all four, start times +4 s, +3 s, +2 s, +1 s); with `Limit = 2` the backend
hands over two lines and `Get` returns the annotations with start times +3 s and +1 s, not
the two with the greatest start times. -/
theorem Get_limit_not_most_recent :
    runOps [] fourEvents = .ok (contentAfter fourEvents) ∧
    Get memoryClient (clockReading + 5000000) (contentAfter fourEvents) sampleQuery =
      .ok [eventDTO 3 4, eventDTO 2 3, eventDTO 4 2, eventDTO 1 1] ∧
    Get memoryClient (clockReading + 5000000) (contentAfter fourEvents)
      { sampleQuery with Limit := 2 } = .ok [eventDTO 2 3, eventDTO 1 1] :=
  ⟨rfl, rfl, rfl⟩

/-- C13, amended: over the backend that stores every pushed line, for every content and
every query with `Limit > 0`, `Get` returns at most as many annotations as the fetch limit
(the query's `Limit` when it names no annotation identifier), and each of them has the
identifier, start time and end time of an entry decoded from one of the lines that
`RangeQuery` returned under the fetch limit. -/
theorem Get_limit_applies_to_fetched_lines (b : Backend) (nowNs : Int) (q : ItemQuery)
    (hq : 0 < q.Limit) :
    ∃ res : List ItemDTO, Get memoryClient nowNs b q = .ok res ∧
      (res.length : Int) ≤ mainLimit q ∧
      (q.AnnotationID = 0 → (res.length : Int) ≤ q.Limit) ∧
      ∀ d ∈ res, ∃ l ∈ (matching b (mainSelector q) (mainWindow nowNs q).1
          (mainWindow nowNs q).2).take (mainLimit q).toNat,
        ∃ e, l.V.asEntry = some e ∧
          d.ID = numericID e.ID ∧ d.Time = e.Time ∧ d.TimeEnd = e.TimeEnd := by
  rw [Get_memoryClient, decodeEntries_response]
  generalize decodeChanges _ = changes
  generalize (if q.To = 0 then { q with To := nowNs / 1000000 } else q) = q1
  have hpos : 0 < mainLimit q := by
    unfold mainLimit
    have h0 : ¬ q.Limit = 0 := by omega
    simp only [h0, if_false]
    split <;> omega
  have h1 := Merge_length_le (((matching b (mainSelector q) (mainWindow nowNs q).1
      (mainWindow nowNs q).2).take (mainLimit q).toNat).filterMap (fun l : StoredLine =>
        match l.V.asEntry with
        | none => none
        | some entry =>
          if q.AnnotationID ≠ 0 ∧
              entry.ID ≠ (if q.AnnotationID ≠ 0 then annotationID q.AnnotationID else "")
          then none else some entry)) changes q1
  have h2 := List.length_filterMap_le (fun l : StoredLine =>
      match l.V.asEntry with
      | none => none
      | some entry =>
        if q.AnnotationID ≠ 0 ∧
            entry.ID ≠ (if q.AnnotationID ≠ 0 then annotationID q.AnnotationID else "")
        then none else some entry)
      ((matching b (mainSelector q) (mainWindow nowNs q).1 (mainWindow nowNs q).2).take
          (mainLimit q).toNat)
  have h3 := List.length_take_le (mainLimit q).toNat
    (matching b (mainSelector q) (mainWindow nowNs q).1 (mainWindow nowNs q).2)
  refine ⟨_, rfl, by omega, ?_, ?_⟩
  · intro hid
    have hml : mainLimit q = q.Limit := by
      unfold mainLimit
      have h0 : ¬ q.Limit = 0 := by omega
      simp [h0, hid]
    omega
  · intro d hd
    obtain ⟨e, he, hfix⟩ := Merge_mem_origin _ _ _ d hd
    obtain ⟨l, hl, hle⟩ := List.mem_filterMap.mp he
    refine ⟨l, hl, e, ?_, hfix⟩
    cases hv : l.V.asEntry with
    | none => simp [hv] at hle
    | some e1 =>
      simp only [hv] at hle
      by_cases hc : q.AnnotationID ≠ 0 ∧
          e1.ID ≠ (if q.AnnotationID ≠ 0 then annotationID q.AnnotationID else "")
      · rw [if_pos hc] at hle
        exact absurd hle (by simp)
      · rw [if_neg hc] at hle
        exact hle

/-- Witness of C13 as amended: the query with `Limit = 2` over the four events. -/
theorem Get_limit_applies_to_fetched_lines_witness :
    ∃ res : List ItemDTO,
      Get memoryClient (clockReading + 5000000) (contentAfter fourEvents)
        { sampleQuery with Limit := 2 } = .ok res ∧
      (res.length : Int) ≤ 2 := by
  obtain ⟨res, h1, _, h3, _⟩ :=
    Get_limit_applies_to_fetched_lines (contentAfter fourEvents) (clockReading + 5000000)
      { sampleQuery with Limit := 2 } (by decide)
  exact ⟨res, h1, h3 rfl⟩


theorem mainWindow_sampleQuery (m : Int) (h0 : 0 < m) (hfit : m * 1000000 < 2 ^ 63) :
    mainWindow (m * 1000000) sampleQuery = (m * 1000000 - thirtyDaysNs, m * 1000000) := by
  have hwn : wrap64 (m * 1000000 - thirtyDaysNs) = m * 1000000 - thirtyDaysNs := by
    apply wrap64_of_fits <;> unfold thirtyDaysNs <;> omega
  have hw0 : wrap64 0 = 0 := by decide
  simp [mainWindow, sampleQuery, hwn, hw0]

theorem changesWindow_sampleQuery (m : Int) (h0 : 0 < m) (hfit : m * 1000000 < 2 ^ 63) :
    wrap64 (changesFrom (m * 1000000)
        (if sampleQuery.To = 0 then { sampleQuery with To := m * 1000000 / 1000000 }
          else sampleQuery) * 1000000) = (m - thirtyDaysMs) * 1000000 ∧
    wrap64 (m * 1000000 / 1000000 * 1000000) = m * 1000000 := by
  have hdiv : m * 1000000 / 1000000 = m := Int.mul_ediv_cancel m (by decide)
  have hw1 : wrap64 (m - thirtyDaysMs) = m - thirtyDaysMs := by
    apply wrap64_of_fits <;> unfold thirtyDaysMs <;> omega
  have hw2 : wrap64 ((m - thirtyDaysMs) * 1000000) = (m - thirtyDaysMs) * 1000000 := by
    apply wrap64_of_fits <;> unfold thirtyDaysMs <;> omega
  have hw3 : wrap64 (m * 1000000) = m * 1000000 := by
    apply wrap64_of_fits <;> omega
  constructor
  · simp [changesFrom, sampleQuery, hdiv, hw1, hw2]
  · rw [hdiv, hw3]

theorem addDefaults_itemCreate (m : Int) :
    addDefaults (m * 1000000) itemCreate = { itemCreate with Epoch := m, Created := m } := by
  have hdiv : m * 1000000 / 1000000 = m := Int.mul_ediv_cancel m (by decide)
  by_cases hm : m = 0
  · subst hm
    rfl
  · simp [addDefaults, itemCreate, hdiv, hm]

theorem lokiTimestamp_now (m : Int) (h0 : 0 < m) (hfit : m * 1000000 < 2 ^ 63) :
    lokiTimestamp (m * 1000000) m = m * 1000000 := by
  rw [lokiTimestamp_of_fits _ m h0 hfit, if_pos]
  unfold hourNs
  omega


/-- The line `Add` stores for `itemCreate` at millisecond `m`. -/
theorem add_itemCreate (m : Int) (h0 : 0 < m) (hfit : m * 1000000 < 2 ^ 63) (b : Backend) :
    (Add memoryClient (m * 1000000) b itemCreate).1 = .ok (b ++ [scenarioAddLine m]) := by
  rw [Add_memoryClient, addDefaults_itemCreate]
  have hts : lokiTimestamp (m * 1000000) m = m * 1000000 := lokiTimestamp_now m h0 hfit
  have hid : annotationID 100 = "ann-100" := by decide
  have hf : formatInt 1 = "1" := by decide
  simp [hts, addLabels, addEntry, itemCreate, hid, hf, scenarioAddLine]


/-- The line `Update` stores for `itemUpdate org` at millisecond `m`. -/
theorem update_itemUpdate (m org : Int) (b : Backend) :
    Update memoryClient (m * 1000000) b (itemUpdate org)
      = .ok (b ++ [scenarioUpdateLine m org]) := by
  have hid : annotationID 100 = "ann-100" := by decide
  have hdiv : m * 1000000 / 1000000 = m := Int.mul_ediv_cancel m (by decide)
  simp [Update, memoryClient, memoryPush, updateStream, itemUpdate, hid, hdiv,
    scenarioUpdateLine]

/-- The line `Delete` stores for identifier 100 at millisecond `m`. -/
theorem delete_scenario (m org : Int) (b : Backend) :
    Delete memoryClient (m * 1000000) b { OrgID := org, ID := 100 }
      = .ok (b ++ [scenarioDeleteLine m org]) := by
  have hid : annotationID 100 = "ann-100" := by decide
  have hdiv : m * 1000000 / 1000000 = m := Int.mul_ediv_cancel m (by decide)
  simp [Delete, memoryClient, memoryPush, deleteStream, hid, hdiv, scenarioDeleteLine]

theorem Get_scenario_after_update (m1 m2 m3 org : Int) (h1 : 0 < m1) (h12 : m1 < m2)
    (h23 : m2 < m3) (hspan : m3 - m1 ≤ thirtyDaysMs) (hfit : m3 * 1000000 < 2 ^ 63) :
    Get memoryClient (m3 * 1000000)
      [scenarioAddLine m1, scenarioUpdateLine m2 org] sampleQuery = .ok [scenarioDTO m1] := by
  have hw := changesWindow_sampleQuery m3 (by omega) hfit
  rw [Get_memoryClient, decodeEntries_response, decodeChanges_response,
    mainWindow_sampleQuery m3 (by omega) hfit, hw.1, hw.2]
  have hf : formatInt 1 = "1" := by decide
  have a1 : m3 * 1000000 ≤ m1 * 1000000 + thirtyDaysNs := by
    unfold thirtyDaysNs; unfold thirtyDaysMs at hspan; omega
  have a2 : m1 * 1000000 ≤ m3 * 1000000 := by omega
  have a3 : (m3 - thirtyDaysMs) * 1000000 ≤ m2 * 1000000 := by
    unfold thirtyDaysMs at *; omega
  have a4 : m2 * 1000000 ≤ m3 * 1000000 := by omega
  simp [matching, List.filter_cons, selects, mainSelector, sampleQuery, mainLimit, hf,
    annotationsStream, changesStream, List.lookup, a1, a2, a3, a4, scenarioAddLine,
    scenarioUpdateLine]
  have hn : numericID "ann-100" = 100 := by decide
  simp [marshalEntry, marshalChange, omitEmptyTags, Merge, MergeRun, groupChanges, groupStep,
    mergeLoop, applyChanges, annotationToDTO, sortSlice, insertSorted, applyLimit, scenarioDTO,
    hn]

theorem Get_scenario_after_delete (m1 m2 m4 m5 orgU orgD : Int) (h1 : 0 < m1) (h12 : m1 < m2)
    (h24 : m2 < m4) (h45 : m4 < m5) (hspan : m5 - m1 ≤ thirtyDaysMs)
    (hfit : m5 * 1000000 < 2 ^ 63) :
    Get memoryClient (m5 * 1000000)
      [scenarioAddLine m1, scenarioUpdateLine m2 orgU, scenarioDeleteLine m4 orgD]
      sampleQuery = .ok [] := by
  have hw := changesWindow_sampleQuery m5 (by omega) hfit
  rw [Get_memoryClient, decodeEntries_response, decodeChanges_response,
    mainWindow_sampleQuery m5 (by omega) hfit, hw.1, hw.2]
  have hf : formatInt 1 = "1" := by decide
  have a1 : m5 * 1000000 ≤ m1 * 1000000 + thirtyDaysNs := by
    unfold thirtyDaysNs; unfold thirtyDaysMs at hspan; omega
  have a2 : m1 * 1000000 ≤ m5 * 1000000 := by omega
  have a3 : (m5 - thirtyDaysMs) * 1000000 ≤ m2 * 1000000 := by
    unfold thirtyDaysMs at *; omega
  have a4 : m2 * 1000000 ≤ m5 * 1000000 := by omega
  have a5 : (m5 - thirtyDaysMs) * 1000000 ≤ m4 * 1000000 := by
    unfold thirtyDaysMs at *; omega
  have a6 : m4 * 1000000 ≤ m5 * 1000000 := by omega
  simp [matching, List.filter_cons, selects, mainSelector, sampleQuery, mainLimit, hf,
    annotationsStream, changesStream, List.lookup, a1, a2, a3, a4, a5, a6, scenarioAddLine,
    scenarioUpdateLine, scenarioDeleteLine]
  simp [marshalEntry, marshalChange, omitEmptyTags, Merge, MergeRun, groupChanges, groupStep,
    mergeLoop, sortSlice, applyLimit, h24]

/-- C11, amended: over the backend that stores every pushed line, with a millisecond clock
that strictly increases between the calls and advances by no more than 30 days from the
`Add` to the last `Get`: after `Add(org=1, id=100, text="A", tags=["x"])` and
`Update(id=100, text="B", tags nil)`, `Get(org=1)` returns exactly one annotation, with
identifier 100, text "B" and tags ["x"]; after a following `Delete(id=100)`, `Get(org=1)`
returns no annotation.  The organisation under which the update and the delete are made
plays no part. -/
theorem end_to_end_scenario (m1 m2 m3 m4 m5 orgU orgD : Int)
    (h1 : 0 < m1) (h12 : m1 < m2) (h23 : m2 < m3) (h34 : m3 < m4) (h45 : m4 < m5)
    (hspan : m5 - m1 ≤ thirtyDaysMs) (hfit : m5 * 1000000 < 2 ^ 63) :
    ∃ b2 b3 : Backend,
      runOps [] [.add (m1 * 1000000) itemCreate, .update (m2 * 1000000) (itemUpdate orgU)]
        = .ok b2 ∧
      Get memoryClient (m3 * 1000000) b2 sampleQuery = .ok [scenarioDTO m1] ∧
      runOps b2 [.delete (m4 * 1000000) { OrgID := orgD, ID := 100 }] = .ok b3 ∧
      Get memoryClient (m5 * 1000000) b3 sampleQuery = .ok [] := by
  refine ⟨[scenarioAddLine m1, scenarioUpdateLine m2 orgU],
    [scenarioAddLine m1, scenarioUpdateLine m2 orgU, scenarioDeleteLine m4 orgD], ?_, ?_, ?_, ?_⟩
  · simp only [runOps, applyOp]
    rw [add_itemCreate m1 h1 (by omega) []]
    simp only [List.nil_append]
    rw [update_itemUpdate m2 orgU]
    rfl
  · exact Get_scenario_after_update m1 m2 m3 orgU h1 h12 h23 (by omega) (by omega)
  · simp only [runOps, applyOp]
    rw [delete_scenario m4 orgD]
    rfl
  · exact Get_scenario_after_delete m1 m2 m4 m5 orgU orgD h1 h12 (by omega) h45 hspan hfit

/-- Witness of C11 as amended: the five calls one millisecond apart, from `clockReading`
on; the update is made under organisation 1, the delete under organisation 2. -/
theorem end_to_end_scenario_witness :
    ∃ b2 b3 : Backend,
      runOps [] [.add (1700000000000 * 1000000) itemCreate,
        .update (1700000000001 * 1000000) (itemUpdate 1)] = .ok b2 ∧
      Get memoryClient (1700000000002 * 1000000) b2 sampleQuery
        = .ok [scenarioDTO 1700000000000] ∧
      runOps b2 [.delete (1700000000003 * 1000000) { OrgID := 2, ID := 100 }] = .ok b3 ∧
      Get memoryClient (1700000000004 * 1000000) b3 sampleQuery = .ok [] :=
  end_to_end_scenario 1700000000000 1700000000001 1700000000002 1700000000003 1700000000004
    1 2 (by decide) (by decide) (by decide) (by decide) (by decide) (by decide) (by decide)

/-- C11, counterexample: the `Add` and the `Update` are made one millisecond apart, and the
`Get` 31 days later; the clock has strictly increased between the calls, the backend still
holds both lines, and `Get(org=1)` returns no annotation: the line of the annotation is
older than the 30 days `queryMainStream` looks back. -/
theorem end_to_end_after_31_days :
    runOps [] [.add clockReading itemCreate, .update (clockReading + 1000000) (itemUpdate 1)]
      = .ok (contentAfter [.add clockReading itemCreate,
          .update (clockReading + 1000000) (itemUpdate 1)]) ∧
    (contentAfter [.add clockReading itemCreate,
      .update (clockReading + 1000000) (itemUpdate 1)]).length = 2 ∧
    Get memoryClient (clockReading + 31 * 24 * hourNs)
      (contentAfter [.add clockReading itemCreate,
        .update (clockReading + 1000000) (itemUpdate 1)]) sampleQuery = .ok [] :=
  ⟨rfl, rfl, rfl⟩

/-! ## The fetch limit of the main stream -/

theorem mainLimit_eq (q : ItemQuery) :
    mainLimit q =
      if q.AnnotationID ≠ 0 then max (if q.Limit = 0 then 100 else q.Limit) 1000
      else (if q.Limit = 0 then 100 else q.Limit) := by
  unfold mainLimit
  by_cases hid : q.AnnotationID = 0
  · simp [hid]
  · by_cases hl : q.Limit = 0
    · simp [hid, hl]
    · simp only [hid, hl, ne_eq, not_false_eq_true, true_and, if_true, if_false]
      split <;> omega

theorem mainLimit_ge_of_id (q : ItemQuery) (h : q.AnnotationID ≠ 0) : 1000 ≤ mainLimit q := by
  rw [mainLimit_eq, if_pos h]
  exact le_max_right _ _

/-- C21: the service passes to `RangeQuery` the limit `L` (the requested limit, 100 when it
is 0), raised to `max L 1000` under an identifier filter; the command-line copy passes the
requested limit as it is: 0 for an unset limit, and 10 for a limit of 10 under an identifier
filter. -/
theorem mainLimit_resolved_but_not_in_cli :
    (∀ (σ : Type) (client : Client σ) (nowNs : Int) (st : σ) (q : ItemQuery),
      mainLimit q = (if q.AnnotationID ≠ 0 then max (if q.Limit = 0 then 100 else q.Limit) 1000
        else (if q.Limit = 0 then 100 else q.Limit)) ∧
      queryMainStream client nowNs st q =
        match client.RangeQuery st (mainSelector q) (mainWindow nowNs q).1
          (mainWindow nowNs q).2 (mainLimit q) with
        | .error err => .error (Err.internal "failed to query main stream" err)
        | .ok res => .ok (decodeEntries q res)) ∧
    cliMainLimit sampleQuery = 0 ∧ mainLimit sampleQuery = 100 ∧
    cliMainLimit { sampleQuery with AnnotationID := 5, Limit := 10 } = 10 ∧
    mainLimit { sampleQuery with AnnotationID := 5, Limit := 10 } = 1000 := by
  refine ⟨fun σ client nowNs st q => ⟨mainLimit_eq q, rfl⟩, rfl, rfl, rfl, rfl⟩

/-! ## Failures of the backend -/

theorem queryMainStream_error {σ : Type} (client : Client σ) (nowNs : Int) (st : σ)
    (q : ItemQuery) (cause : Err)
    (h : client.RangeQuery st (mainSelector q) (mainWindow nowNs q).1 (mainWindow nowNs q).2
      (mainLimit q) = .error cause) :
    Get client nowNs st q = .error (Err.internal "failed to query main stream" cause) := by
  unfold Get queryMainStream
  rw [h]

/-- C25: with a backend whose calls fail with `cause`, `Get` returns an Internal error that
wraps `cause` (for a failure on the main stream and for one on the changes stream), while
`Add`, `AddMany`, `Update` and `Delete` return `cause` itself, which need not be of the
Internal kind. -/
theorem write_operations_return_backend_error_unwrapped (cause : Err) (nowNs : Int)
    (item : Item) (items : List Item) (params : DeleteParams) (q : ItemQuery) :
    Get (failingClient cause) nowNs () q
      = .error (Err.internal "failed to query main stream" cause) ∧
    Get (changesFailingClient cause) nowNs () q
      = .error (Err.internal "failed to query changes stream" cause) ∧
    (Add (failingClient cause) nowNs () item).1 = .error cause ∧
    (AddMany (failingClient cause) nowNs () (item :: items)).1 = .error cause ∧
    Update (failingClient cause) nowNs () item = .error cause ∧
    Delete (failingClient cause) nowNs () params = .error cause ∧
    (Add (failingClient (Err.backend "connection refused")) nowNs () item).1
      = .error (Err.backend "connection refused") := by
  refine ⟨rfl, ?_, rfl, rfl, rfl, rfl, rfl⟩
  have hsel : mainSelector q ≠ [("stream", changesStream)] := by
    unfold mainSelector
    intro h
    have := congrArg List.length h
    simp at this
  unfold Get queryMainStream queryChangesStream changesFailingClient
  simp [hsel]

/-! ## Lines that do not decode -/

theorem decodeEntries_eq (q : ItemQuery) (res : List Stream) :
    decodeEntries q res =
      ((res.flatMap (fun stream => stream.Values)).filterMap (fun s => s.V.asEntry)).filter
        (fun e => decide (q.AnnotationID = 0 ∨ e.ID = annotationID q.AnnotationID)) := by
  unfold decodeEntries
  rw [List.filter_filterMap]
  apply List.filterMap_congr
  intro s _
  cases hs : s.V.asEntry with
  | none => rfl
  | some e =>
    by_cases hid : q.AnnotationID = 0
    · simp [hid, Option.filter]
    · by_cases he : e.ID = annotationID q.AnnotationID
      · simp [hid, he, Option.filter]
      · simp [hid, he, Option.filter]

theorem filterMap_insert_none {α β : Type} (f : α → Option β) (X Y bad : List α)
    (hbad : ∀ s ∈ bad, f s = none) :
    (X ++ bad ++ Y).filterMap f = (X ++ Y).filterMap f := by
  have h : bad.filterMap f = [] := by
    induction bad with
    | nil => rfl
    | cons s t ih =>
      rw [List.filterMap_cons_none (hbad s (List.mem_cons_self _ _))]
      exact ih (fun s hs => hbad s (List.mem_cons_of_mem _ hs))
  simp [List.filterMap_append, h]

/-- C26: for every backend response, `queryMainStream` and `queryChangesStream` succeed and
return, in response order, the decoded entries of the lines that decode (for the main stream
those with the target identifier when the query names one); a response that differs by a
block of lines that do not decode, inserted anywhere, gives the same results. -/
theorem queries_skip_undecodable_lines (nowNs fromMs toMs : Int) (q : ItemQuery)
    (res res2 : List Stream) (X Y bad : List Sample)
    (hres : res.flatMap (fun stream => stream.Values) = X ++ Y)
    (hres2 : res2.flatMap (fun stream => stream.Values) = X ++ bad ++ Y)
    (hbad : ∀ s ∈ bad, s.V.asEntry = none ∧ s.V.asChange = none) :
    queryMainStream (fixedClient res) nowNs () q =
      .ok (((res.flatMap (fun stream => stream.Values)).filterMap (fun s => s.V.asEntry)).filter
        (fun e => decide (q.AnnotationID = 0 ∨ e.ID = annotationID q.AnnotationID))) ∧
    queryChangesStream (fixedClient res) () fromMs toMs =
      .ok ((res.flatMap (fun stream => stream.Values)).filterMap (fun s => s.V.asChange)) ∧
    queryMainStream (fixedClient res2) nowNs () q = queryMainStream (fixedClient res) nowNs () q ∧
    queryChangesStream (fixedClient res2) () fromMs toMs =
      queryChangesStream (fixedClient res) () fromMs toMs := by
  have hm : ∀ r : List Stream, queryMainStream (fixedClient r) nowNs () q =
      .ok (((r.flatMap (fun stream => stream.Values)).filterMap (fun s => s.V.asEntry)).filter
        (fun e => decide (q.AnnotationID = 0 ∨ e.ID = annotationID q.AnnotationID))) := by
    intro r
    rw [← decodeEntries_eq]
    rfl
  have hc : ∀ r : List Stream, queryChangesStream (fixedClient r) () fromMs toMs =
      .ok ((r.flatMap (fun stream => stream.Values)).filterMap (fun s => s.V.asChange)) :=
    fun _ => rfl
  refine ⟨hm res, hc res, ?_, ?_⟩
  · rw [hm, hm, hres, hres2, filterMap_insert_none _ X Y bad (fun s hs => (hbad s hs).1)]
  · rw [hc, hc, hres, hres2, filterMap_insert_none _ X Y bad (fun s hs => (hbad s hs).2)]

theorem queries_skip_undecodable_lines_witness :
    queryMainStream (fixedClient [⟨[], [⟨1, marshalEntry entryA⟩, ⟨2, ⟨none, none⟩⟩]⟩,
        ⟨[], [⟨3, ⟨none, none⟩⟩, ⟨4, marshalEntry entryB⟩]⟩]) 0 () sampleQuery =
      queryMainStream (fixedClient [⟨[], [⟨1, marshalEntry entryA⟩]⟩,
        ⟨[], [⟨4, marshalEntry entryB⟩]⟩]) 0 () sampleQuery ∧
    queryMainStream (fixedClient [⟨[], [⟨1, marshalEntry entryA⟩]⟩,
        ⟨[], [⟨4, marshalEntry entryB⟩]⟩]) 0 () sampleQuery = .ok [entryA, entryB] :=
  ⟨(queries_skip_undecodable_lines 0 0 0 sampleQuery
      [⟨[], [⟨1, marshalEntry entryA⟩]⟩, ⟨[], [⟨4, marshalEntry entryB⟩]⟩]
      [⟨[], [⟨1, marshalEntry entryA⟩, ⟨2, ⟨none, none⟩⟩]⟩,
        ⟨[], [⟨3, ⟨none, none⟩⟩, ⟨4, marshalEntry entryB⟩]⟩]
      [⟨1, marshalEntry entryA⟩] [⟨4, marshalEntry entryB⟩]
      [⟨2, ⟨none, none⟩⟩, ⟨3, ⟨none, none⟩⟩] rfl rfl (by simp)).2.2.1, rfl⟩

/-! ## Tag aggregation -/

theorem hasInfix_iff (sub s : List Char) : hasInfix sub s = true ↔ sub <:+: s := by
  induction s with
  | nil =>
    cases sub with
    | nil => simp [hasInfix]
    | cons a t => simp [hasInfix]
  | cons c cs ih =>
    rw [hasInfix, Bool.or_eq_true, ih, List.isPrefixOf_iff_prefix, List.infix_cons_iff]

theorem charsLess_iff_lex (a : List Char) : ∀ b : List Char,
    charsLess a b = true ↔ List.Lex (· < ·) a b := by
  induction a with
  | nil =>
    intro b
    cases b with
    | nil => simp [charsLess]
    | cons b bs => simp [charsLess, List.Lex.nil]
  | cons a as ih =>
    intro b
    cases b with
    | nil => simp [charsLess]
    | cons b bs =>
      unfold charsLess
      by_cases h : a = b
      · subst h
        simp only [if_true]
        rw [ih bs]
        exact List.Lex.cons_iff.symm
      · simp only [h, if_false, decide_eq_true_eq]
        constructor
        · exact List.Lex.rel
        · intro e
          cases e with
          | cons _ => exact absurd rfl h
          | rel h1 => exact h1

theorem tagLess_iff (a b : TagsDTO) : tagLess a b = true ↔ a.Tag < b.Tag := by
  unfold tagLess
  rw [String.lt_iff_toList_lt, charsLess_iff_lex]
  rfl

theorem countTags_flat (lower : String → String) (query : TagsQuery) (anns : List ItemDTO) :
    countTags lower query anns =
      (anns.flatMap tagsOf).foldl
        (fun m tagStr => if tagPasses lower query tagStr then m.incr tagStr else m)
        { keys := [], count := fun _ => 0 } := by
  unfold countTags
  generalize ({ keys := [], count := fun _ => 0 } : TagCounts) = m0
  induction anns generalizing m0 with
  | nil => rfl
  | cons ann rest ih =>
    rw [List.foldl_cons, ih, List.flatMap_cons, List.foldl_append]

theorem foldl_incr_keys (pass : String → Bool) (l : List String) (m : TagCounts) (k : String) :
    k ∈ (l.foldl (fun m tagStr => if pass tagStr then m.incr tagStr else m) m).keys ↔
      k ∈ m.keys ∨ (k ∈ l ∧ pass k = true) := by
  induction l generalizing m with
  | nil => simp
  | cons s t ih =>
    rw [List.foldl_cons, ih]
    by_cases hp : pass s = true
    · simp only [hp, if_true, TagCounts.incr, List.mem_cons]
      by_cases hs : s ∈ m.keys
      · simp only [hs, if_true]
        constructor
        · rintro (h | ⟨h, hk⟩)
          · exact Or.inl h
          · exact Or.inr ⟨Or.inr h, hk⟩
        · rintro (h | ⟨h | h, hk⟩)
          · exact Or.inl h
          · exact Or.inl (h ▸ hs)
          · exact Or.inr ⟨h, hk⟩
      · simp only [hs, if_false, List.mem_append, List.mem_singleton]
        constructor
        · rintro ((h | h) | ⟨h, hk⟩)
          · exact Or.inl h
          · exact Or.inr ⟨Or.inl h, h ▸ hp⟩
          · exact Or.inr ⟨Or.inr h, hk⟩
        · rintro (h | ⟨h | h, hk⟩)
          · exact Or.inl (Or.inl h)
          · exact Or.inl (Or.inr h)
          · exact Or.inr ⟨h, hk⟩
    · simp only [hp, List.mem_cons]
      constructor
      · rintro (h | ⟨h, hk⟩)
        · exact Or.inl h
        · exact Or.inr ⟨Or.inr h, hk⟩
      · rintro (h | ⟨h | h, hk⟩)
        · exact Or.inl h
        · exact absurd (h ▸ hk) hp
        · exact Or.inr ⟨h, hk⟩

theorem foldl_incr_nodup (pass : String → Bool) (l : List String) (m : TagCounts)
    (h : m.keys.Nodup) :
    (l.foldl (fun m tagStr => if pass tagStr then m.incr tagStr else m) m).keys.Nodup := by
  induction l generalizing m with
  | nil => exact h
  | cons s t ih =>
    rw [List.foldl_cons]
    apply ih
    by_cases hp : pass s = true
    · simp only [hp, if_true, TagCounts.incr]
      by_cases hs : s ∈ m.keys
      · simpa only [hs, if_true] using h
      · simp only [hs, if_false]
        exact List.Nodup.append h (List.nodup_singleton s)
          (fun a ha hb => hs (List.mem_singleton.1 hb ▸ ha))
    · simpa only [hp] using h

theorem foldl_incr_count (pass : String → Bool) (l : List String) (m : TagCounts)
    (k : String) :
    (l.foldl (fun m tagStr => if pass tagStr then m.incr tagStr else m) m).count k =
      m.count k + (if pass k = true then (l.count k : Int) else 0) := by
  induction l generalizing m with
  | nil => simp
  | cons s t ih =>
    rw [List.foldl_cons, ih]
    by_cases hp : pass s = true
    · by_cases hk : k = s
      · subst hk
        simp [hp, TagCounts.incr]
        omega
      · have hsk : ¬ s = k := fun h => hk h.symm
        simp [hp, TagCounts.incr, hk, List.count_cons, hsk]
    · by_cases hk : k = s
      · subst hk
        simp [hp]
      · have hsk : ¬ s = k := fun h => hk h.symm
        simp [hp, List.count_cons, hsk]

theorem countTags_keys (lower : String → String) (query : TagsQuery) (anns : List ItemDTO)
    (k : String) :
    k ∈ (countTags lower query anns).keys ↔
      (∃ ann ∈ anns, k ∈ tagsOf ann) ∧ tagPasses lower query k = true := by
  rw [countTags_flat, foldl_incr_keys]
  simp [List.mem_flatMap]

theorem countTags_nodup (lower : String → String) (query : TagsQuery) (anns : List ItemDTO) :
    (countTags lower query anns).keys.Nodup := by
  rw [countTags_flat]
  exact foldl_incr_nodup _ _ _ List.nodup_nil

theorem countTags_count (lower : String → String) (query : TagsQuery) (anns : List ItemDTO)
    (k : String) (hk : tagPasses lower query k = true) :
    (countTags lower query anns).count k = ((anns.flatMap tagsOf).count k : Int) := by
  rw [countTags_flat, foldl_incr_count]
  simp [hk]

theorem mem_sortedTags (lower : String → String) (query : TagsQuery) (anns : List ItemDTO)
    (t : TagsDTO) :
    t ∈ sortedTags lower query anns ↔
      t.Tag ∈ (countTags lower query anns).keys ∧
        t.Count = (countTags lower query anns).count t.Tag := by
  unfold sortedTags
  rw [(sortSlice_perm _ _).mem_iff, List.mem_map]
  constructor
  · rintro ⟨k, hk, rfl⟩
    exact ⟨hk, rfl⟩
  · rintro ⟨hk, hc⟩
    refine ⟨t.Tag, hk, ?_⟩
    cases t
    simp only at hc
    simp [hc]

theorem sortedTags_ascending (lower : String → String) (query : TagsQuery)
    (anns : List ItemDTO) :
    (sortedTags lower query anns).Pairwise (fun a b => a.Tag < b.Tag) := by
  have hle : (sortedTags lower query anns).Pairwise (fun a b => a.Tag ≤ b.Tag) := by
    unfold sortedTags
    apply sortSlice_pairwise tagLess (fun a b => a.Tag ≤ b.Tag)
    · intro a b c hab hbc
      exact le_trans hab hbc
    · intro a b h
      exact le_of_lt ((tagLess_iff a b).1 h)
    · intro a b h
      apply le_of_not_lt
      intro hlt
      rw [(tagLess_iff a b).2 hlt] at h
      exact absurd h (by decide)
  have hne : (sortedTags lower query anns).Pairwise (fun a b => a.Tag ≠ b.Tag) := by
    have hp : ((sortedTags lower query anns).map (fun t => t.Tag)).Perm
        (countTags lower query anns).keys := by
      unfold sortedTags
      refine ((sortSlice_perm _ _).map _).trans ?_
      rw [List.map_map]
      have : ((fun t : TagsDTO => t.Tag) ∘ fun k =>
          ({ Tag := k, Count := (countTags lower query anns).count k } : TagsDTO)) = id := rfl
      rw [this, List.map_id]
    have hnd := (hp.nodup_iff).2 (countTags_nodup lower query anns)
    exact (List.pairwise_map.1 hnd)
  exact (hle.and hne).imp (fun h => lt_of_le_of_ne h.1 h.2)

theorem aggregateTags_of_nonneg (lower : String → String) (query : TagsQuery)
    (anns : List ItemDTO) (h : 0 ≤ query.Limit) :
    aggregateTags lower query anns =
      some ((sortedTags lower query anns).take
        (if query.Limit = 0 then 100 else query.Limit).toNat) := by
  have hl : 0 ≤ (if query.Limit = 0 then (100 : Int) else query.Limit) := by
    split <;> omega
  unfold aggregateTags limitTags sliceTo
  generalize (if query.Limit = 0 then (100 : Int) else query.Limit) = L at hl
  by_cases hgt : ((sortedTags lower query anns).length : Int) > L
  · simp only [hgt, hl, if_true]
  · simp only [hgt, if_false]
    rw [List.take_of_length_le]
    omega

theorem aggregateTags_initial (lower : String → String) (query : TagsQuery)
    (anns : List ItemDTO) (tags : List TagsDTO)
    (h : aggregateTags lower query anns = some tags) :
    tags <+: sortedTags lower query anns := by
  unfold aggregateTags limitTags sliceTo at h
  generalize (if query.Limit = 0 then (100 : Int) else query.Limit) = L at h
  by_cases hgt : ((sortedTags lower query anns).length : Int) > L
  · simp only [hgt, if_true] at h
    by_cases hl : 0 ≤ L
    · simp only [hl, if_true, Option.some.injEq] at h
      rw [← h]
      exact List.take_prefix _ _
    · simp only [hl, if_false] at h
      cases h
  · simp only [hgt, if_false, Option.some.injEq] at h
    rw [← h]

theorem GetTags_of_Get {σ : Type} (client : Client σ) (lower : String → String) (nowNs : Int)
    (st : σ) (query : TagsQuery) (anns : List ItemDTO)
    (h : Get client nowNs st (tagsItemQuery nowNs query) = .ok anns) :
    GetTags client lower nowNs st query = (aggregateTags lower query anns).map .ok := by
  unfold GetTags
  rw [h]
  cases h2 : aggregateTags lower query anns <;> simp [h2]

theorem occurrences_eq_carriers (anns : List ItemDTO) (k : String)
    (h : ∀ ann ∈ anns, (tagsOf ann).Nodup) :
    (anns.flatMap tagsOf).count k = (anns.filter (fun ann => decide (k ∈ tagsOf ann))).length := by
  induction anns with
  | nil => rfl
  | cons ann rest ih =>
    rw [List.flatMap_cons, List.count_append,
      ih (fun a ha => h a (List.mem_cons_of_mem _ ha)),
      List.count_eq_of_nodup (h ann (List.mem_cons_self _ _))]
    by_cases hk : k ∈ tagsOf ann
    · simp [hk, List.filter_cons]
      omega
    · simp [hk, List.filter_cons]

/-- C22: every tag the aggregation of `GetTags` returns is non-empty and is carried by one
of the annotations; with a filter set, the lower-case form of the tag contains the
lower-case form of the filter as a run of consecutive characters; with no filter, every
non-empty tag of every annotation is in the sorted tag list.  The filter "prod" keeps the tag
"PROD-east" and drops "staging". -/
theorem GetTags_keeps_matching_tags (lower : String → String) (query : TagsQuery)
    (anns : List ItemDTO) (tags : List TagsDTO) (t : TagsDTO)
    (hres : aggregateTags lower query anns = some tags) (ht : t ∈ tags) :
    t.Tag ≠ "" ∧ (∃ ann ∈ anns, t.Tag ∈ tagsOf ann) ∧
    (query.Tag ≠ "" → (lower query.Tag).toList <:+: (lower t.Tag).toList) ∧
    (query.Tag = "" → ∀ ann ∈ anns, ∀ s ∈ tagsOf ann, s ≠ "" →
      ∃ u ∈ sortedTags lower query anns, u.Tag = s) ∧
    tagPasses asciiLower tagsProd "PROD-east" = true ∧
    tagPasses asciiLower tagsProd "staging" = false := by
  have hmem := (aggregateTags_initial lower query anns tags hres).subset ht
  have hkey := ((mem_sortedTags lower query anns t).1 hmem).1
  obtain ⟨hann, hpass⟩ := (countTags_keys lower query anns t.Tag).1 hkey
  have hne : t.Tag ≠ "" := by
    intro h
    simp [tagPasses, h] at hpass
  refine ⟨hne, hann, ?_, ?_, by decide, by decide⟩
  · intro hq
    simp only [tagPasses, hne, hq, if_false, ne_eq, not_false_eq_true, if_true] at hpass
    exact (hasInfix_iff _ _).1 hpass
  · intro hq ann hann2 s hs hsne
    have hp : tagPasses lower query s = true := by simp [tagPasses, hsne, hq]
    have hk : s ∈ (countTags lower query anns).keys :=
      (countTags_keys lower query anns s).2 ⟨⟨ann, hann2, hs⟩, hp⟩
    exact ⟨{ Tag := s, Count := (countTags lower query anns).count s },
      (mem_sortedTags lower query anns _).2 ⟨hk, rfl⟩, rfl⟩

theorem GetTags_keeps_matching_tags_witness :
    aggregateTags asciiLower tagsProd [taggedOne, taggedTwo]
      = some [⟨"PROD-east", 1⟩, ⟨"productive", 1⟩] ∧
    ("prod".toList <:+: (asciiLower "PROD-east").toList) :=
  ⟨by decide,
    (GetTags_keeps_matching_tags asciiLower tagsProd [taggedOne, taggedTwo]
      [⟨"PROD-east", 1⟩, ⟨"productive", 1⟩] ⟨"PROD-east", 1⟩ (by decide) (by decide)).2.2.1
      (by decide)⟩

/-- C23 (counterexample): an annotation added with the tag list ["a", "a"] is the only
annotation, and `GetTags` reports the count 2 for the tag "a". -/
theorem GetTags_counts_repeated_tag_twice :
    (Add memoryClient clockReading [] itemTagTwice).1
      = .ok (contentAfter [.add clockReading itemTagTwice]) ∧
    Get memoryClient (clockReading + 1000000) (contentAfter [.add clockReading itemTagTwice])
        (tagsItemQuery (clockReading + 1000000) tagsAll)
      = .ok [{ ID := 100, DashboardUID := none, PanelID := 0, UserID := 0, Text := "A",
               Tags := some ["a", "a"], Time := 1700000000000, TimeEnd := 0 }] ∧
    GetTags memoryClient asciiLower (clockReading + 1000000)
        (contentAfter [.add clockReading itemTagTwice]) tagsAll
      = some (.ok [⟨"a", 2⟩]) := by
  set_option maxRecDepth 100000 in
  exact ⟨rfl, rfl, rfl⟩

/-- C23 (amended): the count `GetTags` reports for a returned tag is the number of times the
exact tag string occurs in the tag lists of the annotations; it is the number of annotations
that carry the tag when no annotation names a tag twice. -/
theorem GetTags_count_is_occurrences (lower : String → String) (query : TagsQuery)
    (anns : List ItemDTO) (tags : List TagsDTO) (t : TagsDTO)
    (hres : aggregateTags lower query anns = some tags) (ht : t ∈ tags) :
    t.Count = ((anns.map (fun ann => (tagsOf ann).count t.Tag)).sum : Nat) ∧
    ((∀ ann ∈ anns, (tagsOf ann).Nodup) →
      t.Count = ((anns.filter (fun ann => decide (t.Tag ∈ tagsOf ann))).length : Nat)) := by
  have hmem := (aggregateTags_initial lower query anns tags hres).subset ht
  obtain ⟨hkey, hcount⟩ := (mem_sortedTags lower query anns t).1 hmem
  have hpass := ((countTags_keys lower query anns t.Tag).1 hkey).2
  rw [countTags_count lower query anns t.Tag hpass] at hcount
  refine ⟨?_, fun hnd => ?_⟩
  · rw [hcount, List.count_flatMap]
    rfl
  · rw [hcount, occurrences_eq_carriers anns t.Tag hnd]

theorem GetTags_count_is_occurrences_witness :
    aggregateTags asciiLower tagsAll [taggedOne, taggedTwo]
      = some [⟨"PROD-east", 1⟩, ⟨"b", 3⟩, ⟨"productive", 1⟩, ⟨"staging", 1⟩] ∧
    (3 : Int) = (([taggedOne, taggedTwo].map (fun ann => (tagsOf ann).count "b")).sum : Nat) :=
  ⟨by decide,
    (GetTags_count_is_occurrences asciiLower tagsAll [taggedOne, taggedTwo]
      [⟨"PROD-east", 1⟩, ⟨"b", 3⟩, ⟨"productive", 1⟩, ⟨"staging", 1⟩] ⟨"b", 3⟩
      (by decide) (by decide)).1⟩

/-- C24: with a negative limit the truncation step of `GetTags` slices out of range
(`tags[:limit]` with `limit < 0`), whatever the annotations, so `GetTags` returns no tag
list. -/
theorem GetTags_negative_limit_out_of_range {σ : Type} (client : Client σ)
    (lower : String → String) (nowNs : Int) (st : σ) (query : TagsQuery) (anns : List ItemDTO)
    (hget : Get client nowNs st (tagsItemQuery nowNs query) = .ok anns)
    (hneg : query.Limit < 0) :
    limitTags query (sortedTags lower query anns) = none ∧
    GetTags client lower nowNs st query = none := by
  have hl : limitTags query (sortedTags lower query anns) = none := by
    unfold limitTags sliceTo
    have h0 : ¬ query.Limit = 0 := by omega
    have h1 : ((sortedTags lower query anns).length : Int) > query.Limit := by omega
    have h2 : ¬ 0 ≤ query.Limit := by omega
    simp only [h0, h1, h2, if_true, if_false]
  refine ⟨hl, ?_⟩
  rw [GetTags_of_Get client lower nowNs st query anns hget]
  unfold aggregateTags
  rw [hl]
  rfl

theorem GetTags_negative_limit_out_of_range_witness :
    Get memoryClient clockReading [] (tagsItemQuery clockReading { tagsAll with Limit := -1 })
      = .ok [] ∧
    GetTags memoryClient asciiLower clockReading [] { tagsAll with Limit := -1 } = none :=
  ⟨rfl, (GetTags_negative_limit_out_of_range memoryClient asciiLower clockReading []
    { tagsAll with Limit := -1 } [] rfl (by decide)).2⟩

theorem GetTags_limit_of_nonneg (lower : String → String) (query : TagsQuery)
    (anns : List ItemDTO) (h : 0 ≤ query.Limit) :
    ∃ tags, aggregateTags lower query anns = some tags ∧
      tags <+: sortedTags lower query anns ∧
      (sortedTags lower query anns).Pairwise (fun a b => a.Tag < b.Tag) ∧
      (tags.length : Int) ≤ (if query.Limit = 0 then 100 else query.Limit) ∧
      (((sortedTags lower query anns).length : Int) ≤ (if query.Limit = 0 then 100
        else query.Limit) → tags = sortedTags lower query anns) := by
  refine ⟨_, aggregateTags_of_nonneg lower query anns h, List.take_prefix _ _,
    sortedTags_ascending lower query anns, ?_, ?_⟩
  · have hl : 0 ≤ (if query.Limit = 0 then (100 : Int) else query.Limit) := by
      split <;> omega
    generalize (if query.Limit = 0 then (100 : Int) else query.Limit) = L at hl
    have := List.length_take_le L.toNat (sortedTags lower query anns)
    omega
  · intro hfit
    apply List.take_of_length_le
    omega

/-! ## Ties and orphans in the grouping loop -/

theorem reconcile_congr (m m2 : ChangeMap) (e : AnnotationEntry) (h : m e.ID = m2 e.ID) :
    reconcile m e = reconcile m2 e := by
  unfold reconcile
  rw [h]

theorem groupStep_congr (m m2 : ChangeMap) (c : ChangeEntry) (k : String) (h : m k = m2 k) :
    groupStep m c k = groupStep m2 c k := by
  by_cases hk : k = c.AnnotationID
  · subst hk
    cases hm : m c.AnnotationID with
    | none =>
      rw [groupStep_self_none m c hm, groupStep_self_none m2 c (h ▸ hm)]
    | some e =>
      have hm2 : m2 c.AnnotationID = some e := h ▸ hm
      by_cases hgt : e.Created < c.Created
      · rw [groupStep_self_gt m c e hm hgt, groupStep_self_gt m2 c e hm2 hgt]
      · rw [groupStep_self_le m c e hm (by omega), groupStep_self_le m2 c e hm2 (by omega)]
        exact h
  · rw [groupStep_other m c k hk, groupStep_other m2 c k hk]
    exact h

theorem foldl_groupStep_filter (p : ChangeEntry → Bool) (k : String)
    (hp : ∀ c : ChangeEntry, c.AnnotationID = k → p c = true) (l : List ChangeEntry) :
    ∀ m m2 : ChangeMap, m k = m2 k →
      ((l.filter p).foldl groupStep m) k = (l.foldl groupStep m2) k := by
  induction l with
  | nil => intro m m2 h; exact h
  | cons c t ih =>
    intro m m2 h
    by_cases hc : p c = true
    · rw [List.filter_cons_of_pos hc, List.foldl_cons, List.foldl_cons]
      exact ih _ _ (groupStep_congr m m2 c k h)
    · rw [List.filter_cons_of_neg hc, List.foldl_cons]
      apply ih
      have hk : k ≠ c.AnnotationID := fun hk => hc (hp c hk.symm)
      rw [groupStep_other m2 c k hk]
      exact h

theorem groupChanges_withoutOrphans (entries : List AnnotationEntry)
    (changes : List ChangeEntry) (e : AnnotationEntry) (he : e ∈ entries) :
    groupChanges (withoutOrphans entries changes) e.ID = groupChanges changes e.ID := by
  unfold groupChanges withoutOrphans
  apply foldl_groupStep_filter
  · intro c hc
    simp only [decide_eq_true_eq, List.mem_map]
    exact ⟨e, he, hc.symm⟩
  · rfl

theorem Merge_withoutOrphans (entries : List AnnotationEntry) (changes : List ChangeEntry)
    (q : ItemQuery) (h : withoutOrphans entries changes ≠ []) :
    Merge entries (withoutOrphans entries changes) q = Merge entries changes q := by
  have hc : changes ≠ [] := by
    intro hc
    apply h
    rw [hc]
    rfl
  rw [Merge_of_changes _ _ _ h, Merge_of_changes _ _ _ hc]
  congr 2
  apply List.filterMap_congr
  intro e he
  exact reconcile_congr _ _ e (groupChanges_withoutOrphans entries changes e he)

/-- C27 (counterexample): of two updates of `ann-1` made at the same millisecond, "first"
before "second" in the change list, `Merge` applies the one that comes first. -/
theorem Merge_tie_keeps_first :
    tieFirst.AnnotationID = tieSecond.AnnotationID ∧ tieFirst.Created = tieSecond.Created ∧
    groupChanges [tieFirst, tieSecond] "ann-1" = some tieFirst ∧
    Merge [entryA] [tieFirst, tieSecond] sampleQuery =
      [{ ID := 1, DashboardUID := none, PanelID := 0, UserID := 0, Text := "first",
         Tags := some ["x"], Time := 10, TimeEnd := 10 }] := by
  decide

/-- C27 (amended): ties are resolved by first-seen-wins.  When every change for the
identifier of `D` that comes before `D` in the list is strictly older than `D`, and none
that comes after it is newer, the grouping loop keeps `D` for the identifier, and `Merge`
treats an entry with that identifier as if `D` were the only change. -/
theorem Merge_tie_first_seen_wins (pre post : List ChangeEntry) (D : ChangeEntry)
    (e : AnnotationEntry) (q : ItemQuery)
    (hpre : ∀ c ∈ pre, c.AnnotationID = D.AnnotationID → c.Created < D.Created)
    (hpost : ∀ c ∈ post, c.AnnotationID = D.AnnotationID → c.Created ≤ D.Created)
    (hid : e.ID = D.AnnotationID) :
    groupChanges (pre ++ D :: post) D.AnnotationID = some D ∧
    Merge [e] (pre ++ D :: post) q = Merge [e] [D] q := by
  have hg := groupChanges_at pre post D hpre hpost
  have hg1 : groupChanges [D] D.AnnotationID = some D :=
    groupChanges_at [] [] D (by simp) (by simp)
  refine ⟨hg, ?_⟩
  rw [Merge_of_changes _ _ _ (by simp), Merge_of_changes _ _ _ (by simp)]
  congr 2
  apply List.filterMap_congr
  intro a ha
  rw [List.mem_singleton] at ha
  subst ha
  apply reconcile_congr
  rw [hid, hg, hg1]

theorem Merge_tie_first_seen_wins_witness :
    Merge [entryA] ([updateOld] ++ tieFirst :: [tieSecond]) sampleQuery
      = Merge [entryA] [tieFirst] sampleQuery :=
  (Merge_tie_first_seen_wins [updateOld] [tieSecond] tieFirst entryA sampleQuery
    (by decide) (by decide) rfl).2

/-- C28, failing input: the only change is an update of `ann-999`, the identifier of no
entry.  With it `Merge` sorts the two annotations by descending start time; without it the
change list is empty and `Merge` returns them in input order. -/
theorem Merge_orphan_change_alters_result :
    withoutOrphans [entryA, entryB] [orphanChange] = [] ∧
    Merge [entryA, entryB] [orphanChange] sampleQuery
      = [annotationToDTO entryB, annotationToDTO entryA] ∧
    Merge [entryA, entryB] (withoutOrphans [entryA, entryB] [orphanChange]) sampleQuery
      = [annotationToDTO entryA, annotationToDTO entryB] ∧
    Merge [entryA, entryB] (withoutOrphans [entryA, entryB] [orphanChange]) sampleQuery
      ≠ Merge [entryA, entryB] [orphanChange] sampleQuery := by
  decide

/-! ## Organisations and the requested window -/

/-- C29, failing input: organisation 1 adds the annotation 100.  A delete of the identifier
100 written under organisation 2 removes it from what `Get` returns to organisation 1, and
an update written under organisation 2 changes its text, because the query of the changes
stream has no organisation matcher; an annotation that organisation 2 adds under the same
identifier has no effect, because the query of the main stream has one. -/
theorem Get_applies_changes_of_other_organisation :
    runOps [] [.add clockReading itemCreate,
        .delete (clockReading + 1000000) { OrgID := 2, ID := 100 }]
      = .ok (contentAfter [.add clockReading itemCreate,
          .delete (clockReading + 1000000) { OrgID := 2, ID := 100 }]) ∧
    Get memoryClient (clockReading + 2000000) (contentAfter [.add clockReading itemCreate])
      sampleQuery = .ok [createdDTO] ∧
    Get memoryClient (clockReading + 2000000)
      (contentAfter [.add clockReading itemCreate,
        .delete (clockReading + 1000000) { OrgID := 2, ID := 100 }])
      sampleQuery = .ok [] ∧
    Get memoryClient (clockReading + 2000000)
      (contentAfter [.add clockReading itemCreate,
        .update (clockReading + 1000000) (itemUpdate 2)])
      sampleQuery = .ok [{ createdDTO with Text := "B" }] ∧
    Get memoryClient (clockReading + 2000000)
      (contentAfter [.add clockReading itemCreate,
        .add (clockReading + 1000000) itemOtherOrg])
      sampleQuery = .ok [createdDTO] :=
  ⟨rfl, rfl, rfl, rfl, rfl⟩

theorem mem_matching_window (b : Backend) (l : StoredLine) (selector : List (String × String))
    (s e : Int) (h : l ∈ matching b selector s e) : s ≤ l.T ∧ l.T ≤ e := by
  unfold matching at h
  simp only [List.mem_filter, Bool.and_eq_true, decide_eq_true_eq] at h
  exact ⟨h.2.1.2, h.2.2⟩

theorem some_of_ite_none {α : Type} (c : Prop) [Decidable c] (a b : α)
    (h : (if c then none else some a) = some b) : a = b := by
  by_cases hc : c
  · simp [hc] at h
  · simpa [hc] using h

theorem mainWindow_from_le (nowNs : Int) (q : ItemQuery) (h0 : 0 < q.From)
    (hfit : q.From * 1000000 < 2 ^ 63) :
    q.From * 1000000 ≤ (mainWindow nowNs q).1 := by
  unfold mainWindow
  rw [wrap64_of_fits (q.From * 1000000) (by omega) hfit]
  simp only
  split
  · rename_i h
    rcases h with h | h
    · omega
    · omega
  · exact le_refl _

theorem mainWindow_to_eq (nowNs : Int) (q : ItemQuery) (h0 : 0 < q.To)
    (hfit : q.To * 1000000 < 2 ^ 63) :
    (mainWindow nowNs q).2 = q.To * 1000000 := by
  unfold mainWindow
  rw [wrap64_of_fits (q.To * 1000000) (by omega) hfit]
  simp only
  rw [if_neg (by omega)]

/-- C30 (counterexample): an event that started 10000 seconds before the clock reading is
added at the clock reading and stamped with it; a query whose window runs from two seconds
before the clock reading to one second after it returns the annotation, whose start time is
before the window. -/
theorem Get_returns_event_outside_window :
    0 < queryAroundNow.From ∧ queryAroundNow.From ≤ queryAroundNow.To ∧
    lokiTimestamp clockReading itemPast.Epoch = clockReading ∧
    addThenGet [] clockReading clockReading itemPast queryAroundNow
      = .ok [annotationToDTO (addEntry (addDefaults clockReading itemPast))] ∧
    (annotationToDTO (addEntry (addDefaults clockReading itemPast))).Time = itemPast.Epoch ∧
    itemPast.Epoch < queryAroundNow.From :=
  ⟨by decide, by decide, rfl, rfl, rfl, by decide⟩

/-- C30 (amended): every annotation `Get` returns is the projection of an entry decoded from
a stored line whose timestamp lies in the window `queryMainStream` requests; when the bounds
of the query are set and fit in nanoseconds and the line was stamped with the start time of
the entry, the start time lies between `From` and `To`. -/
theorem Get_window_is_on_line_timestamp (nowNs : Int) (b : Backend) (q : ItemQuery)
    (res : List ItemDTO) (d : ItemDTO)
    (hget : Get memoryClient nowNs b q = .ok res) (hd : d ∈ res) :
    ∃ l ∈ b, ∃ e : AnnotationEntry, l.V.asEntry = some e ∧ d.ID = numericID e.ID ∧
      d.Time = e.Time ∧
      (mainWindow nowNs q).1 ≤ l.T ∧ l.T ≤ (mainWindow nowNs q).2 ∧
      (0 < q.From → q.From ≤ q.To → q.To * 1000000 < 2 ^ 63 → l.T = e.Time * 1000000 →
        q.From ≤ d.Time ∧ d.Time ≤ q.To) := by
  rw [Get_memoryClient, decodeEntries_response] at hget
  have hres := Except.ok.inj hget
  rw [← hres] at hd
  obtain ⟨e, he, hid, htime, _⟩ := Merge_mem_origin _ _ _ d hd
  rw [List.mem_filterMap] at he
  obtain ⟨l, hl, hle⟩ := he
  have hlm := List.mem_of_mem_take hl
  have hlb := (mem_matching b l _ _ _ hlm).1
  have hw := mem_matching_window b l _ _ _ hlm
  cases hentry : l.V.asEntry with
  | none => simp [hentry] at hle
  | some e2 =>
    have he2 : e2 = e := by
      simp only [hentry] at hle
      exact some_of_ite_none _ _ _ hle
    subst he2
    refine ⟨l, hlb, e2, hentry, hid, htime, hw.1, hw.2, ?_⟩
    intro hfrom hft hfit hstamp
    have h1 := mainWindow_from_le nowNs q hfrom (by omega)
    have h2 := mainWindow_to_eq nowNs q (by omega) hfit
    rw [h2] at hw
    rw [htime]
    omega

theorem Get_window_is_on_line_timestamp_witness :
    ∃ l ∈ contentAfter [.add clockReading itemRecent], ∃ e : AnnotationEntry,
      l.V.asEntry = some e ∧
      (annotationToDTO (addEntry (addDefaults clockReading itemRecent))).ID = numericID e.ID ∧
      (annotationToDTO (addEntry (addDefaults clockReading itemRecent))).Time = e.Time ∧
      (mainWindow clockReading queryAroundNow).1 ≤ l.T ∧
      l.T ≤ (mainWindow clockReading queryAroundNow).2 ∧
      (0 < queryAroundNow.From → queryAroundNow.From ≤ queryAroundNow.To →
        queryAroundNow.To * 1000000 < 2 ^ 63 → l.T = e.Time * 1000000 →
        queryAroundNow.From ≤ (annotationToDTO (addEntry (addDefaults clockReading
          itemRecent))).Time ∧
        (annotationToDTO (addEntry (addDefaults clockReading itemRecent))).Time
          ≤ queryAroundNow.To) :=
  Get_window_is_on_line_timestamp clockReading (contentAfter [.add clockReading itemRecent])
    queryAroundNow [annotationToDTO (addEntry (addDefaults clockReading itemRecent))]
    (annotationToDTO (addEntry (addDefaults clockReading itemRecent))) rfl
    (List.mem_singleton.2 rfl)

end LokiAnnotations
